import Mathlib

/-!
# Verification of the logAnalyser backend

A shallow embedding of the log-analysis pipeline of `src/backend/backend.py`
and `src/backend/backend2.py` (the two API variants the claims cite), together
with proofs and refutations of the frozen claims about it.

Python-specific behaviour (the `re` search semantics of the two concrete
patterns the code uses, `str.splitlines`, `str.strip`, `str.replace`,
`str.split`, `datetime.strptime`, `csv.writer`, dict-based counting) is
embedded as executable Lean functions; endpoints are functions from the
uploaded decoded content (and, where relevant, an abstract generation
backend) to `Except String` results, where `.error` models an exception
escaping the endpoint body.
-/

namespace LogAnalyser

/-! ## Python string primitives -/

/-- The ASCII whitespace characters recognised by Python's `str.strip` and by
`\s` in the `re` module (the further Unicode whitespace characters are not
used by the embedded documents). -/
def pyIsSpace (c : Char) : Bool :=
  c = ' ' || c = '\t' || c = '\n' || c = '\r' || c = '\x0b' || c = '\x0c'

/-- `str.strip()` on the character list: drop leading and trailing
whitespace. -/
def stripChars (cs : List Char) : List Char :=
  ((cs.dropWhile pyIsSpace).reverse.dropWhile pyIsSpace).reverse

/-- `str.strip()`. -/
def pyStrip (s : String) : String :=
  String.mk (stripChars s.toList)

/-- `line.replace(":", " ")` on a single character. -/
def replColon (c : Char) : Char :=
  if c = ':' then ' ' else c

/-- `s.replace(":", " ")`. -/
def pyReplaceColon (s : String) : String :=
  String.mk (s.toList.map replColon)

/-- `str.splitlines` (over the line boundaries `\n`, `\r\n` and `\r` that can
occur in the embedded documents): the final line break, if any, does not open
an extra empty line. -/
def splitlinesAux : List Char → List Char → List String
  | [], [] => []
  | [], acc => [String.mk acc.reverse]
  | '\r' :: '\n' :: rest, acc => String.mk acc.reverse :: splitlinesAux rest []
  | '\n' :: rest, acc => String.mk acc.reverse :: splitlinesAux rest []
  | '\r' :: rest, acc => String.mk acc.reverse :: splitlinesAux rest []
  | c :: rest, acc => splitlinesAux rest (c :: acc)

/-- `s.splitlines()`. -/
def pySplitlines (s : String) : List String :=
  splitlinesAux s.toList []

/-- `"\n".join(ls)`. -/
def joinNL : List String → String
  | [] => ""
  | [s] => s
  | s :: rest => s ++ "\n" ++ joinNL rest

/-! ## The error pattern `ERROR\s+(\d{3})?:?\s*(.+)` (re.search)

`re.search` scans for the leftmost start position at which the pattern
matches, resolving each quantifier greedily with backtracking.  The pattern
is compiled here element by element; every element takes the remaining
character list, and an element that can consume different amounts of input
first tries the greedy amount and falls back on failure, exactly as the
backtracking engine does. -/

/-- Final element `(.+)`: greedily take the characters up to the end of the
input or the first `\n` (`.` does not match a newline); the match fails when
that span is empty.  Returns group 2. -/
def dotPlus (cs : List Char) : Option String :=
  let d := cs.takeWhile (fun c => c ≠ '\n')
  if d.isEmpty then none else some (String.mk d)

/-- Elements `\s*(.+)`: `\s*` is greedy, backtracking one whitespace
character at a time when the tail fails. -/
def starSpacesThen : List Char → Option String
  | [] => dotPlus []
  | c :: rest =>
    if pyIsSpace c then
      match starSpacesThen rest with
      | some s => some s
      | none => dotPlus (c :: rest)
    else dotPlus (c :: rest)

/-- Elements `:?\s*(.+)`: the optional colon is tried first (greedy), and the
alternative without it on failure. -/
def colonOpt : List Char → Option String
  | ':' :: rest =>
    (match starSpacesThen rest with
     | some s => some s
     | none => starSpacesThen (':' :: rest))
  | cs => starSpacesThen cs

/-- Elements `(\d{3})?:?\s*(.+)`: the optional three-digit group is tried
first; on failure of the rest the group is dropped.  Returns groups 1, 2. -/
def digitsOpt : List Char → Option (Option String × String)
  | a :: b :: c :: rest =>
    if a.isDigit && b.isDigit && c.isDigit then
      match colonOpt rest with
      | some s => some (some (String.mk [a, b, c]), s)
      | none => (colonOpt (a :: b :: c :: rest)).map (fun s => (none, s))
    else (colonOpt (a :: b :: c :: rest)).map (fun s => (none, s))
  | cs => (colonOpt cs).map (fun s => (none, s))

/-- The `\s*` part of `\s+` (after its first required whitespace character)
followed by `(\d{3})?:?\s*(.+)`; greedy with backtracking. -/
def spacesStarDigits : List Char → Option (Option String × String)
  | [] => digitsOpt []
  | c :: rest =>
    if pyIsSpace c then
      match spacesStarDigits rest with
      | some r => some r
      | none => digitsOpt (c :: rest)
    else digitsOpt (c :: rest)

/-- Everything after the literal `ERROR`: `\s+(\d{3})?:?\s*(.+)`. -/
def matchAfterERROR : List Char → Option (Option String × String)
  | c :: rest => if pyIsSpace c then spacesStarDigits rest else none
  | [] => none

/-- Attempt the whole pattern at the current position: the literal `ERROR`
followed by `matchAfterERROR`. -/
def matchERRORHere : List Char → Option (Option String × String)
  | c1 :: c2 :: c3 :: c4 :: c5 :: tail =>
    if c1 = 'E' ∧ c2 = 'R' ∧ c3 = 'R' ∧ c4 = 'O' ∧ c5 = 'R' then
      matchAfterERROR tail
    else none
  | _ => none

/-- `re.search(error_pattern, ·)`: try every start position left to right. -/
def searchError : List Char → Option (Option String × String)
  | [] => none
  | c :: rest =>
    match matchERRORHere (c :: rest) with
    | some r => some r
    | none => searchError rest

/-! ## `regex_logs` (backend.py lines 117–139; identical to backend2.py's
`pre_summarize_logs`) -/

/-- `error_summary[key] = error_summary.get(key, 0) + 1` on an
insertion-ordered dict. -/
def bump (key : String) : List (String × Nat) → List (String × Nat)
  | [] => [(key, 1)]
  | (k, n) :: rest => if k = key then (k, n + 1) :: rest else (k, n) :: bump key rest

/-- The string the pattern is searched in: `line.replace(":", " ").strip()`. -/
def transformLine (line : String) : String :=
  pyStrip (pyReplaceColon line)

/-- Whether a line matches the error pattern (after the colon replacement and
strip the source applies before searching). -/
def lineMatchesError (line : String) : Bool :=
  (searchError (transformLine line).toList).isSome

/-- One iteration of the `for line in lines` loop of `regex_logs`. -/
def regexLogsStep (tbl : List (String × Nat)) (line : String) : List (String × Nat) :=
  match searchError (transformLine line).toList with
  | some (code?, desc) =>
    bump ("Error " ++ code?.getD "N/A" ++ ": " ++ desc) tbl
  | none => tbl

/-- `regex_logs(log_content)` as the insertion-ordered frequency table
underlying both its string and its dict rendering (the `Error Summary`
list of `Type & Description`/`Count` pairs). -/
def regex_logs (log : String) : List (String × Nat) :=
  (pySplitlines log).foldl regexLogsStep []

/-- Total of the `Count` column. -/
def sumCounts (tbl : List (String × Nat)) : Nat :=
  (tbl.map (fun r => r.2)).sum

/-! ## The timestamp token `\[(.*?)\]` (re.search)

Lazy `.*?`: at the leftmost `[` the shortest completion is tried, i.e. the
span up to the first following `]`; `.` does not match `\n`, so if no `]`
occurs before a newline or the end, the search moves on to the next start
position. -/

/-- `re.search(r"\[(.*?)\]", ·)`, returning group 1. -/
def bracketToken : List Char → Option String
  | '[' :: rest =>
    let inner := rest.takeWhile (fun c => c ≠ ']' ∧ c ≠ '\n')
    (match rest.drop inner.length with
     | ']' :: _ => some (String.mk inner)
     | _ => bracketToken rest)
  | _ :: rest => bracketToken rest
  | [] => none

/-! ## The error marker `ERROR\s+(\d{3})?` (re.search)

After the greedy `\s+` the optional group can only start at the end of the
maximal whitespace run (a digit is not whitespace, so shortening `\s+` can
never make the group match), hence no backtracking is needed here. -/

/-- Attempt `ERROR\s+(\d{3})?` at the current position; `some g` is a match
with group 1 `g`. -/
def markerHere : List Char → Option (Option String)
  | c1 :: c2 :: c3 :: c4 :: c5 :: c6 :: tail =>
    if c1 = 'E' ∧ c2 = 'R' ∧ c3 = 'R' ∧ c4 = 'O' ∧ c5 = 'R' ∧ pyIsSpace c6 then
      match tail.dropWhile pyIsSpace with
      | a :: b :: c :: _ =>
        if a.isDigit ∧ b.isDigit ∧ c.isDigit then some (some (String.mk [a, b, c]))
        else some none
      | _ => some none
    else none
  | _ => none

/-- `re.search(r"ERROR\s+(\d{3})?", ·)`. -/
def searchErrorMarker : List Char → Option (Option String)
  | [] => none
  | c :: rest =>
    match markerHere (c :: rest) with
    | some r => some r
    | none => searchErrorMarker rest

/-! ## `datetime.strptime(·, "%Y-%m-%d %H:%M:%S")`

Python's `_strptime` compiles `%Y` to four digits and the other fields to
the alternations `1[0-2]|0[1-9]|[1-9]` (month), `3[01]|[12]\d|0[1-9]|[1-9]`
(day), `2[0-3]|[0-1]\d|\d` (hour) and `[0-5]\d|\d` (minute/second): two
digits when the two-digit value is in range, otherwise a single digit.
Trailing unconverted data and calendar-invalid dates raise `ValueError`. -/

structure PyDateTime where
  year : Nat
  month : Nat
  day : Nat
  hour : Nat
  minute : Nat
  second : Nat
deriving DecidableEq, Repr

def digitVal (c : Char) : Nat := c.toNat - 48

/-- `%Y`: exactly four digits. -/
def parseY : List Char → Option (Nat × List Char)
  | a :: b :: c :: d :: rest =>
    if a.isDigit && b.isDigit && c.isDigit && d.isDigit then
      some (digitVal a * 1000 + digitVal b * 100 + digitVal c * 10 + digitVal d, rest)
    else none
  | _ => none

/-- A numeric field matched as two digits when the value lies in
`lo..hi`, else as one digit when that lies in `lo1..hi1`. -/
def parse2or1 (lo hi lo1 hi1 : Nat) : List Char → Option (Nat × List Char)
  | a :: b :: rest =>
    if a.isDigit && b.isDigit &&
        lo ≤ digitVal a * 10 + digitVal b && digitVal a * 10 + digitVal b ≤ hi then
      some (digitVal a * 10 + digitVal b, rest)
    else if a.isDigit && lo1 ≤ digitVal a && digitVal a ≤ hi1 then
      some (digitVal a, b :: rest)
    else none
  | [a] =>
    if a.isDigit && lo1 ≤ digitVal a && digitVal a ≤ hi1 then some (digitVal a, [])
    else none
  | [] => none

def expectChar (c : Char) : List Char → Option (List Char)
  | d :: rest => if d = c then some rest else none
  | [] => none

def isLeap (y : Nat) : Bool :=
  (y % 4 = 0 && y % 100 ≠ 0) || y % 400 = 0

def daysInMonth (y m : Nat) : Nat :=
  if m = 2 then (if isLeap y then 29 else 28)
  else if m = 4 ∨ m = 6 ∨ m = 9 ∨ m = 11 then 30
  else 31

/-- `datetime.strptime(s, "%Y-%m-%d %H:%M:%S")`; `none` models the
`ValueError` it raises. -/
def strptime (s : String) : Option PyDateTime := do
  let (y, r1) ← parseY s.toList
  let r2 ← expectChar '-' r1
  let (mo, r3) ← parse2or1 1 12 1 9 r2
  let r4 ← expectChar '-' r3
  let (d, r5) ← parse2or1 1 31 1 9 r4
  let r6 ← expectChar ' ' r5
  let (h, r7) ← parse2or1 0 23 0 9 r6
  let r8 ← expectChar ':' r7
  let (mi, r9) ← parse2or1 0 59 0 9 r8
  let r10 ← expectChar ':' r9
  let (sec, r11) ← parse2or1 0 59 0 9 r10
  if r11 = [] ∧ 1 ≤ y ∧ d ≤ daysInMonth y mo then
    some ⟨y, mo, d, h, mi, sec⟩
  else none

/-- Zero-padded two-digit rendering used by `strftime`. -/
def pad2 (n : Nat) : String :=
  String.mk [Nat.digitChar (n / 10 % 10), Nat.digitChar (n % 10)]

/-- Zero-padded four-digit rendering used by `strftime`. -/
def pad4 (n : Nat) : String :=
  String.mk [Nat.digitChar (n / 1000 % 10), Nat.digitChar (n / 100 % 10),
             Nat.digitChar (n / 10 % 10), Nat.digitChar (n % 10)]

/-- `dt.strftime("%Y-%m-%d %H:00:00")`: the hour bucket key. -/
def hourBucket (dt : PyDateTime) : String :=
  pad4 dt.year ++ "-" ++ pad2 dt.month ++ "-" ++ pad2 dt.day ++ " " ++ pad2 dt.hour ++ ":00:00"

/-- The full `[YYYY-MM-DD HH:MM:SS]` rendering of a timestamp's fields (what
a well-formed log line carries between its brackets). -/
def fmtTimestamp (y mo d h mi sec : Nat) : String :=
  pad4 y ++ "-" ++ pad2 mo ++ "-" ++ pad2 d ++ " " ++ pad2 h ++ ":" ++ pad2 mi ++ ":" ++ pad2 sec

/-! ## `extract_metadata_with_timestamps` (backend.py lines 141–171) -/

structure Metadata where
  total_errors : Nat
  error_timestamps : List (Option String × List PyDateTime)
  time_concentration : List (String × Nat)
deriving DecidableEq, Repr

/-- `metadata["error_timestamps"].setdefault(code, []).append(dt)`. -/
def appendTs (code : Option String) (dt : PyDateTime) :
    List (Option String × List PyDateTime) → List (Option String × List PyDateTime)
  | [] => [(code, [dt])]
  | (k, ds) :: rest =>
    if k = code then (k, ds ++ [dt]) :: rest else (k, ds) :: appendTs code dt rest

/-- One iteration of the line loop of `extract_metadata_with_timestamps`.
When both regexes match, the unguarded `datetime.strptime` call either
yields the timestamp used for the counters or raises `ValueError`, which
aborts the whole extraction (the `total_errors` increment that textually
precedes it is then lost with the rest of the dict). -/
def extractStep (md : Metadata) (line : String) : Except String Metadata :=
  match bracketToken line.toList, searchErrorMarker line.toList with
  | some ts, some code? =>
    match strptime ts with
    | none => .error ("ValueError: time data " ++ ts ++ " does not match format")
    | some dt =>
      .ok { total_errors := md.total_errors + 1,
            error_timestamps := appendTs code? dt md.error_timestamps,
            time_concentration := bump (hourBucket dt) md.time_concentration }
  | _, _ => .ok md

/-- `extract_metadata_with_timestamps(log_content)`; `.error` models the
uncaught `ValueError` escaping the function. -/
def extract_metadata_with_timestamps (log : String) : Except String Metadata :=
  (pySplitlines log).foldlM extractStep ⟨0, [], []⟩

/-! ## `basic_analysis` (backend.py lines 200–232 and backend2.py lines
97–107) -/

/-- `max(d, key=d.get)` over the insertion-ordered dict: Python's `max`
keeps the first of several maximal entries; on an empty dict it raises
`ValueError: max() arg is an empty sequence`. -/
def pyMaxByValue : List (String × Nat) → Except String (String × Nat)
  | [] => .error "ValueError: max() arg is an empty sequence"
  | x :: xs => .ok (xs.foldl (fun b y => if y.2 > b.2 then y else b) x)

/-- The `Timestamp Insights` object of the JSON response. -/
structure TimeInsights where
  total_errors : Nat
  peak_time : String
  peak_errors : Nat
  time_concentration : List (String × Nat)
deriving DecidableEq, Repr

/-- The JSON body backend.py's `basic_analysis` sends on success. -/
structure BasicAnalysisResponse where
  errorSummary : List (String × Nat)
  insights : TimeInsights
deriving DecidableEq, Repr

/-- `validate_and_read_file` on the decoded content: the endpoint works on
`content.strip()` and rejects it when that is empty (the file-extension
check concerns only the filename collaborator and is not part of the
content model). -/
def validateContent (content : String) : Except String String :=
  if pyStrip content = "" then
    .error "HTTPException 400: File is empty or contains no valid content."
  else .ok (pyStrip content)

/-- backend.py's `basic_analysis` endpoint body.  `error_summary` as a dict
is always truthy, so the `No errors found` fallback at the end of the
function is unreachable; before the truthiness test is even reached, the
`time_insights` dict comprehension calls `max` over `time_concentration`,
which raises on an empty dict, and `extract_metadata_with_timestamps` may
itself raise. -/
def basic_analysisB (content : String) : Except String BasicAnalysisResponse :=
  match validateContent content with
  | .error e => .error e
  | .ok log =>
    match extract_metadata_with_timestamps log with
    | .error e => .error e
    | .ok md =>
      match pyMaxByValue md.time_concentration with
      | .error e => .error e
      | .ok peak =>
        .ok ⟨regex_logs log, ⟨md.total_errors, peak.1, peak.2, md.time_concentration⟩⟩

/-- backend2.py's `basic_analysis` endpoint body: the error-summary dict is
always truthy, so the endpoint always answers with the (possibly empty)
`Error Summary` table. -/
def basic_analysis2 (content : String) : Except String (List (String × Nat)) :=
  match validateContent content with
  | .error e => .error e
  | .ok log => .ok (regex_logs log)

/-- The decidable per-line test for the timestamped-error counters: the line
has both an `ERROR\s+` marker match and a bracketed token that parses as
`YYYY-MM-DD HH:MM:SS`. -/
def lineTsError (line : String) : Bool :=
  (searchErrorMarker line.toList).isSome &&
    (match bracketToken line.toList with
     | some t => (strptime t).isSome
     | none => false)

/-! ## The Chunker

Modelled from the spec: `split_log_content_with_metadata` (backend.py lines
92–113) delegates the actual splitting to langchain's
`RecursiveCharacterTextSplitter.from_tiktoken_encoder` with
`separators=["\n"]` and `chunk_overlap=0` — third-party code that is not
part of this repository's sources — so the splitting algorithm is taken
from spec §4.2: greedily accumulate whole lines (including the line
separator) into the current chunk until adding the next line would exceed
the maximum; a single line longer than the maximum becomes its own
oversized chunk, never force-split. -/

/-- The document as its lines with their terminating `\n` kept (the last
line may be unterminated). -/
def segmentLines : List Char → List (List Char)
  | [] => []
  | c :: rest =>
    if c = '\n' then ['\n'] :: segmentLines rest
    else
      match segmentLines rest with
      | [] => [[c]]
      | s :: ss => (c :: s) :: ss

/-- Modelled from the spec (§4.2): greedy accumulation of whole
line-segments into chunks of at most `n` characters, an oversized segment
standing alone. -/
def chunkGreedy (n : Nat) : List (List Char) → List Char → List (List Char)
  | [], cur => if cur.isEmpty then [] else [cur]
  | seg :: segs, cur =>
    if cur.isEmpty then
      if seg.length > n then seg :: chunkGreedy n segs []
      else chunkGreedy n segs seg
    else if cur.length + seg.length ≤ n then chunkGreedy n segs (cur ++ seg)
    else
      cur :: (if seg.length > n then seg :: chunkGreedy n segs []
              else chunkGreedy n segs seg)

/-- The ordered chunk texts of a document. -/
def splitChunks (doc : String) (n : Nat) : List String :=
  (chunkGreedy n (segmentLines doc.toList) []).map (fun cs => String.mk cs)

/-- Per-chunk metadata (backend.py line 109). -/
structure ChunkMeta where
  chunk_id : Nat
  length : Nat
  error_count : Nat
deriving DecidableEq, Repr

/-- `chunk.count("ERROR")`: non-overlapping occurrences, scanned from the
left. -/
def countERRORAux : List Char → Nat
  | 'E' :: 'R' :: 'R' :: 'O' :: 'R' :: rest => 1 + countERRORAux rest
  | _ :: rest => countERRORAux rest
  | [] => 0

/-- `split_log_content_with_metadata(log_content, chunk_size)` (spec-modelled
splitting, see above; the metadata construction is from the source). -/
def split_log_content_with_metadata (doc : String) (n : Nat := 3500) :
    List String × List ChunkMeta :=
  let chunks := splitChunks doc n
  (chunks, chunks.enum.map (fun p => ⟨p.1, p.2.length, countERRORAux p.2.toList⟩))

/-! ## Prompt chains and the generation pipelines

Modelled from the spec: the chains `prompt | llm` are langchain
collaborators that are not part of this repository's sources.  Per spec §6
and §9 a chain renders a fixed prompt template over the supplied variable
mapping and submits it to the opaque fallible backend `generate`; invoking
a template with one of its placeholders unbound is an error (the library
raises `KeyError` naming the missing variables).  The backend behind a
chain is abstracted as a fallible function of the variables the template
actually consumes. -/

structure Chain where
  requiredVars : List String
  gen : List (String × String) → Except String String

/-- `chain.invoke(inputs)`. -/
def Chain.invoke (c : Chain) (inputs : List (String × String)) : Except String String :=
  let missing := c.requiredVars.filter (fun v => (inputs.lookup v).isNone)
  if missing.isEmpty then c.gen inputs
  else .error ("KeyError: missing prompt variables " ++ joinNL missing)

/-- `summarize_prompt | llm`: the template consumes `log_content` only. -/
def summarizeChain (g : String → Except String String) : Chain :=
  ⟨["log_content"], fun inputs => g ((inputs.lookup "log_content").getD "")⟩

/-- `final_summarize_prompt | llm`: the template consumes `log_content`
only. -/
def finalSummarizeChain (g : String → Except String String) : Chain :=
  ⟨["log_content"], fun inputs => g ((inputs.lookup "log_content").getD "")⟩

/-- `query_prompt | llm`: the template consumes `log_content` and `query`. -/
def queryChain (g : String → String → Except String String) : Chain :=
  ⟨["log_content", "query"], fun inputs =>
    g ((inputs.lookup "log_content").getD "") ((inputs.lookup "query").getD "")⟩

/-- `process_chunk_async` (backend.py lines 174–183): the chain is invoked
with the single variable `log_content`; nothing else — in particular no
`query` — is passed. -/
def process_chunk_async (chunk : String) (chain : Chain) : Except String String :=
  chain.invoke [("log_content", chunk)]

/-- `summarize_chunks_async` (backend.py lines 186–196): `asyncio.gather`
without `return_exceptions` fails with the exception of a failed task; when
at most one task fails this is that task's exception (several simultaneous
failures are ordered by scheduling; the model propagates the first in list
order). -/
def summarize_chunks_async (chunks : List String) (chain : Chain) :
    Except String (List String) :=
  chunks.mapM (fun c => process_chunk_async c chain)

/-- `summary_raw_log` (backend.py lines 236–254): only the first ten chunks
are summarized; the gather is outside the `try`, so a chunk-level failure
escapes as the raw backend exception, while a failure of the final
reduction call is wrapped in an HTTP 500. -/
def summary_raw_log (g f : String → Except String String) (content : String) :
    Except String String :=
  match validateContent content with
  | .error e => .error e
  | .ok log =>
    match summarize_chunks_async ((split_log_content_with_metadata log).1.take 10)
        (summarizeChain g) with
    | .error e => .error e
    | .ok summaries =>
      match (finalSummarizeChain f).invoke [("log_content", joinNL summaries)] with
      | .ok s => .ok s
      | .error e => .error ("HTTPException 500: Error generating summary: " ++ e)

/-- `query_log` (backend.py lines 292–305): every chunk is processed through
`query_chain` by `process_chunk_async` — which passes only `log_content` —
and the per-chunk responses are joined with newlines next to the echoed
query. -/
def query_log (g : String → String → Except String String) (content q : String) :
    Except String (String × String) :=
  match validateContent content with
  | .error e => .error e
  | .ok log =>
    match summarize_chunks_async (split_log_content_with_metadata log).1 (queryChain g) with
    | .error e => .error e
    | .ok response => .ok (q, joinNL response)

/-- The position of the first chunk whose generation call fails: the chunk
id that, per the spec, a partial-stage `GenerationFailure` must identify. -/
def firstFailingChunk (g : String → Except String String) : List String → Option Nat
  | [] => none
  | c :: rest =>
    match g c with
    | .error _ => some 0
    | .ok _ => (firstFailingChunk g rest).map (fun i => i + 1)

/-! ## CSV export (backend.py lines 309–333 and backend2.py lines 145–166) -/

/-- `str(n)` for a count. -/
def natToStrAux : Nat → List Char → List Char
  | n, acc =>
    if h : n < 10 then Nat.digitChar n :: acc
    else natToStrAux (n / 10) (Nat.digitChar (n % 10) :: acc)
  termination_by n => n
  decreasing_by exact Nat.div_lt_self (Nat.lt_of_lt_of_le (by norm_num) (Nat.le_of_not_lt h)) (by norm_num)

def natToStr (n : Nat) : String :=
  String.mk (natToStrAux n [])

/-- `csv.writer` field quoting (QUOTE_MINIMAL): quote when the field holds
the delimiter, the quote character or a line break, doubling inner
quotes. -/
def csvField (s : String) : String :=
  if s.toList.any (fun c => c = ',' || c = '\x22' || c = '\n' || c = '\r') then
    "\x22" ++ String.mk (s.toList.foldr
      (fun c acc => if c = '\x22' then '\x22' :: '\x22' :: acc else c :: acc) []) ++ "\x22"
  else s

def joinComma : List String → String
  | [] => ""
  | [s] => s
  | s :: rest => s ++ "," ++ joinComma rest

/-- `csv.writer(...).writerow(fields)`: comma-joined quoted fields plus the
writer's default `\r\n` terminator. -/
def csvRow (fields : List String) : String :=
  joinComma (fields.map csvField) ++ "\r\n"

/-- The string form of `pre_summarize_logs` / `regex_logs` (`as_dict=False`):
`"key - Count: n"` lines joined by newlines. -/
def pre_summarize_logs (log : String) : String :=
  joinNL ((regex_logs log).map (fun r => r.1 ++ " - Count: " ++ natToStr r.2))

/-- The characters of the separator `" - Count: "`. -/
def sepChars : List Char := [' ', '-', ' ', 'C', 'o', 'u', 'n', 't', ':', ' ']

/-- Whether the separator `" - Count: "` starts at the head of the text. -/
def sepHere : List Char → Bool
  | c1 :: c2 :: c3 :: c4 :: c5 :: c6 :: c7 :: c8 :: c9 :: c10 :: _ =>
    c1 == ' ' && c2 == '-' && c3 == ' ' && c4 == 'C' && c5 == 'o' && c6 == 'u' &&
    c7 == 'n' && c8 == 't' && c9 == ':' && c10 == ' '
  | _ => false

/-- `line.split(" - Count: ")` specialised to the literal separator
(Python `str.split` cuts at every non-overlapping occurrence, scanning from
the left). -/
def splitCountSepAux (s acc : List Char) : List (List Char) :=
  match s with
  | [] => [acc.reverse]
  | c :: rest =>
    if sepHere (c :: rest) then acc.reverse :: splitCountSepAux (rest.drop 9) []
    else splitCountSepAux rest (c :: acc)
  termination_by s.length
  decreasing_by
    · simp only [List.length_cons, List.length_drop]
      omega
    · simp only [List.length_cons]
      omega

def pySplitCountSep (line : String) : List String :=
  (splitCountSepAux line.toList []).map (fun cs => String.mk cs)

/-- `es.split("\n")`. -/
def splitNLAux : List Char → List Char → List String
  | [], acc => [String.mk acc.reverse]
  | '\n' :: rest, acc => String.mk acc.reverse :: splitNLAux rest []
  | c :: rest, acc => splitNLAux rest (c :: acc)

def pySplitNL (s : String) : List String :=
  splitNLAux s.toList []

/-- Turn one line of the string rendering back into a CSV row, as the loop
body `key, count = line.split(" - Count: "); writer.writerow([key, count])`
does. -/
def rowOfLine (line : String) : Except String String :=
  match pySplitCountSep line with
  | [k, c] => Except.ok (csvRow [k, c])
  | _ => Except.error "ValueError: not enough values to unpack"

/-- backend2.py's `download_error_summary` endpoint body: re-parses the
string rendering of the frequency table into rows (`str.split` unpacking to
two names raises `ValueError` unless the split has exactly two parts). -/
def download_error_summary2 (content : String) : Except String String :=
  match validateContent content with
  | .error e => .error e
  | .ok log =>
    if pre_summarize_logs log = "" then
      .error "HTTPException 400: No errors found in the log file."
    else
      match (pySplitNL (pre_summarize_logs log)).mapM rowOfLine with
      | .error e => .error e
      | .ok rows => .ok (csvRow ["Type & Description", "Count"] ++ String.join rows)

/-- backend.py's `download_error_summary` endpoint body: it binds the
splitter's `(chunks, metadata)` pair to `error_summary, metadata`, writes a
four-column header, and then subscripts the chunk *list* with the string
`"Error Summary"`, which raises `TypeError` before any response is
produced. -/
def download_error_summaryB (content : String) : Except String String :=
  match validateContent content with
  | .error e => .error e
  | .ok log =>
    let _pair := split_log_content_with_metadata log
    .error "TypeError: list indices must be integers or slices, not str"

/-! # Theorems -/

/-! ## Count conservation (C7) -/

lemma sumCounts_bump (k : String) (t : List (String × Nat)) :
    sumCounts (bump k t) = sumCounts t + 1 := by
  induction t with
  | nil => simp [bump, sumCounts]
  | cons hd tl ih =>
    obtain ⟨k', n⟩ := hd
    by_cases h : k' = k <;> simp [bump, h, sumCounts] at ih ⊢ <;> omega

lemma sumCounts_step (t : List (String × Nat)) (line : String) :
    sumCounts (regexLogsStep t line) =
      sumCounts t + (if lineMatchesError line then 1 else 0) := by
  unfold regexLogsStep lineMatchesError
  cases h : searchError (transformLine line).toList with
  | none => simp [h]
  | some r =>
    obtain ⟨c, d⟩ := r
    simp [h, sumCounts_bump]

lemma sumCounts_foldl (lines : List String) :
    ∀ t, sumCounts (lines.foldl regexLogsStep t) =
      sumCounts t + (lines.filter lineMatchesError).length := by
  induction lines with
  | nil => intro t; simp
  | cons l ls ih =>
    intro t
    rw [List.foldl_cons, ih, sumCounts_step, List.filter]
    cases h : lineMatchesError l <;> simp [h] <;> omega

/-- C7: for every document, the counts of the frequency table produced by
`regex_logs` sum to the number of lines that match the error pattern (the
source's matching rule: the pattern searched in the colon-replaced, stripped
line); each matching line bumps exactly one record by one. -/
theorem regex_logs_count_conservation (d : String) :
    sumCounts (regex_logs d) = ((pySplitlines d).filter lineMatchesError).length := by
  unfold regex_logs
  simpa [sumCounts] using sumCounts_foldl (pySplitlines d) []

/-! ## Colon-stripping invariance (C8) -/

lemma replColon_replColon (c : Char) : replColon (replColon c) = replColon c := by
  unfold replColon
  by_cases h : c = ':' <;> simp [h]

lemma replColon_newline : replColon '\n' = '\n' := by decide

lemma replColon_cr : replColon '\r' = '\r' := by decide

lemma replColon_ne_newline (c : Char) (h : c ≠ '\n') : replColon c ≠ '\n' := by
  unfold replColon
  split <;> simp_all

lemma replColon_ne_cr (c : Char) (h : c ≠ '\r') : replColon c ≠ '\r' := by
  unfold replColon
  split <;> simp_all

lemma splitlinesAux_map_repl (cs acc : List Char) :
    splitlinesAux (cs.map replColon) (acc.map replColon) =
      (splitlinesAux cs acc).map pyReplaceColon := by
  induction cs, acc using splitlinesAux.induct with
  | case1 => simp [splitlinesAux]
  | case2 acc h =>
    simp only [List.map_nil, splitlinesAux, List.map_cons]
    cases hm : acc.map replColon with
    | nil => simp at hm; simp [hm] at h
    | cons x xs =>
      simp [splitlinesAux, pyReplaceColon, ← hm]
  | case3 rest acc ih =>
    simpa [splitlinesAux, pyReplaceColon] using ih
  | case4 rest acc ih =>
    simpa [splitlinesAux, pyReplaceColon] using ih
  | case5 rest acc h ih =>
    have hr : replColon '\r' = '\r' := by decide
    have hmap : ('\r' :: rest).map replColon = '\r' :: rest.map replColon := by simp [hr]
    rw [hmap]
    have hne : ∀ c cs', rest.map replColon = c :: cs' → c ≠ '\n' := by
      intro c cs' hrest
      cases rest with
      | nil => simp at hrest
      | cons r rs =>
        simp at hrest
        have : r ≠ '\n' := by
          intro hcon
          exact h rs (by rw [hcon])
        rw [← hrest.1]
        exact replColon_ne_newline r this
    cases hrest : rest.map replColon with
    | nil =>
      have : rest = [] := by simpa using hrest
      subst this
      simp [splitlinesAux, pyReplaceColon]
    | cons x xs =>
      have hx : x ≠ '\n' := hne x xs hrest
      rw [← hrest]
      cases rest with
      | nil => simp at hrest
      | cons r rs =>
        have hrne : r ≠ '\n' := by
          intro hcon
          exact h rs (by rw [hcon])
        simp only [List.map_cons]
        rw [show splitlinesAux ('\r' :: replColon r :: rs.map replColon) (acc.map replColon) =
              String.mk (acc.map replColon).reverse ::
                splitlinesAux (replColon r :: rs.map replColon) [] from by
          rw [splitlinesAux.eq_def]
          simp [replColon_ne_newline r hrne]]
        rw [show splitlinesAux ('\r' :: r :: rs) acc =
              String.mk acc.reverse :: splitlinesAux (r :: rs) [] from by
          rw [splitlinesAux.eq_def]
          simp [hrne]]
        have := ih
        simp only [List.map_cons] at this
        simp only [List.map_nil] at this
        simp [this, pyReplaceColon]
  | case6 c rest acc h1 h2 h3 ih =>
    have hcn : replColon c ≠ '\n' := replColon_ne_newline c h2
    have hcr : replColon c ≠ '\r' := replColon_ne_cr c h3
    simp only [List.map_cons]
    rw [show splitlinesAux (replColon c :: rest.map replColon) (acc.map replColon) =
          splitlinesAux (rest.map replColon) (replColon c :: acc.map replColon) from by
      rw [splitlinesAux.eq_def]
      cases hrest : rest.map replColon with
      | nil => simp [hcn, hcr]
      | cons x xs => simp [hcn, hcr]]
    rw [show splitlinesAux (c :: rest) acc = splitlinesAux rest (c :: acc) from by
      rw [splitlinesAux.eq_def]
      cases rest with
      | nil => simp [h2, h3]
      | cons x xs => simp [h2, h3]]
    exact ih

lemma pySplitlines_replace (d : String) :
    pySplitlines (pyReplaceColon d) = (pySplitlines d).map pyReplaceColon := by
  unfold pySplitlines pyReplaceColon
  simpa using splitlinesAux_map_repl d.toList []

lemma transformLine_replace (l : String) :
    transformLine (pyReplaceColon l) = transformLine l := by
  unfold transformLine
  congr 1
  unfold pyReplaceColon
  apply String.ext
  show List.map replColon (List.map replColon l.toList) = List.map replColon l.toList
  rw [List.map_map]
  have : (replColon ∘ replColon) = replColon := by
    funext c
    exact replColon_replColon c
  rw [this]

lemma regexLogsStep_replace (t : List (String × Nat)) (l : String) :
    regexLogsStep t (pyReplaceColon l) = regexLogsStep t l := by
  unfold regexLogsStep
  rw [transformLine_replace]

/-- C8: the frequency table is computed from colon-stripped lines, so
replacing every colon of the document by a space leaves the table
unchanged. -/
theorem regex_logs_colon_invariant (d : String) :
    regex_logs (pyReplaceColon d) = regex_logs d := by
  unfold regex_logs
  rw [pySplitlines_replace, List.foldl_map]
  congr 1
  funext t l
  exact regexLogsStep_replace t l

/-! ## Chunk reconstruction (C1) -/

lemma segmentLines_join : ∀ cs : List Char, (segmentLines cs).flatten = cs := by
  intro cs
  induction cs with
  | nil => simp [segmentLines]
  | cons c rest ih =>
    by_cases h : c = '\n'
    · simp [segmentLines, h, ih]
    · simp only [segmentLines, if_neg h]
      cases hr : segmentLines rest with
      | nil =>
        rw [hr] at ih
        simp at ih
        simp [ih]
      | cons s ss =>
        rw [hr] at ih
        simp at ih ⊢
        simpa using ih

lemma chunkGreedy_join (n : Nat) :
    ∀ (segs : List (List Char)) (cur : List Char),
      (chunkGreedy n segs cur).flatten = cur ++ segs.flatten := by
  intro segs
  induction segs with
  | nil =>
    intro cur
    by_cases h : cur.isEmpty
    · simp [chunkGreedy, h, List.isEmpty_iff.mp h]
    · simp [chunkGreedy, h]
  | cons seg segs ih =>
    intro cur
    by_cases h : cur.isEmpty
    · have hc : cur = [] := List.isEmpty_iff.mp h
      by_cases hl : seg.length > n
      · simp [chunkGreedy, h, hl, ih, hc]
      · simp [chunkGreedy, h, hl, ih, hc]
    · by_cases hfit : cur.length + seg.length ≤ n
      · simp [chunkGreedy, h, hfit, ih]
      · by_cases hl : seg.length > n
        · simp [chunkGreedy, h, hfit, hl, ih]
        · simp [chunkGreedy, h, hfit, hl, ih]

lemma string_foldl_append_data :
    ∀ (l : List String) (a : String),
      (l.foldl (· ++ ·) a).data = a.data ++ (l.map String.data).flatten := by
  intro l
  induction l with
  | nil => intro a; simp
  | cons x xs ih =>
    intro a
    simp only [List.foldl_cons, ih, String.data_append, List.map_cons, List.flatten_cons,
      List.append_assoc]

lemma string_join_map_mk (ls : List (List Char)) :
    String.join (ls.map (fun cs => String.mk cs)) = String.mk ls.flatten := by
  apply String.ext
  rw [String.join, string_foldl_append_data]
  simp only [List.map_map, List.nil_append]
  have hid : (String.data ∘ fun cs => String.mk cs) = id := rfl
  rw [hid, List.map_id]

/-- C1: for every document and every maximum chunk size `n ≥ 1`,
concatenating the chunk texts of `split_log_content_with_metadata` in
ascending chunk-id order (= the returned order; the metadata ids are
`0, 1, …`) reproduces the document exactly, also when the document holds a
single line longer than `n`.  (The splitting algorithm is modelled from
spec §4.2, the splitter itself being third-party code.) -/
theorem chunk_reconstruction (doc : String) (n : Nat) (h : 1 ≤ n) :
    String.join (split_log_content_with_metadata doc n).1 = doc ∧
    (split_log_content_with_metadata doc n).2.map (fun m => m.chunk_id) =
      List.range (split_log_content_with_metadata doc n).1.length := by
  constructor
  · unfold split_log_content_with_metadata splitChunks
    rw [string_join_map_mk, chunkGreedy_join, segmentLines_join, List.nil_append]
    rfl
  · unfold split_log_content_with_metadata
    simp only [List.map_map]
    have hcomp :
        ((fun m : ChunkMeta => m.chunk_id) ∘ fun p : Nat × String =>
          (⟨p.1, p.2.length, countERRORAux p.2.toList⟩ : ChunkMeta)) = Prod.fst := rfl
    rw [hcomp, List.enum_map_fst]

/-- Witness for C1 at `n = 1` on a document whose single lines are both
longer than the bound. -/
theorem chunk_reconstruction_witness :
    1 ≤ 1 ∧ String.join (split_log_content_with_metadata "ab\ncd" 1).1 = "ab\ncd" :=
  ⟨by decide, (chunk_reconstruction "ab\ncd" 1 (by decide)).1⟩

/-! ## The query pipeline never receives the query (C2) -/

/-- C2 (code bug, evaluated at a failing input): `query_log` on the document
`"hello"` with the question `"what failed"` and a generation backend that
would answer any prompt: `process_chunk_async` passes only `log_content` to
`query_chain`, whose template also requires `query`, so the chain invocation
fails with the library's missing-variable `KeyError` — the question is never
submitted together with any chunk, and no concatenated response is
returned. -/
theorem query_log_never_submits_query :
    query_log (fun lc q => Except.ok ("answer using " ++ lc ++ " to " ++ q))
        "hello" "what failed" =
      Except.error "KeyError: missing prompt variables query" := by
  rfl

/-! ## Extraction aborts on a malformed timestamp (C3) -/

/-- C3 (code bug, evaluated at a failing input): on a line whose bracketed
token fails date parsing while the line carries an error marker, the
unguarded `datetime.strptime` raises and `extract_metadata_with_timestamps`
aborts instead of skipping the line's timestamp contribution; the
independently computed `regex_logs` table does still count the line, but the
enclosing `basic_analysis` request dies with the same `ValueError`. -/
theorem extract_aborts_on_malformed_timestamp :
    extract_metadata_with_timestamps "[notadate] ERROR 404: boom" =
      Except.error "ValueError: time data notadate does not match format" ∧
    regex_logs "[notadate] ERROR 404: boom" = [("Error 404: boom", 1)] ∧
    basic_analysisB "[notadate] ERROR 404: boom" =
      Except.error "ValueError: time data notadate does not match format" :=
  ⟨rfl, rfl, rfl⟩

/-! ## Basic analysis on an error-free document (C4) -/

/-- C4 (code bug, evaluated at a failing input): for the valid, non-empty,
error-free document `"hello"`, backend2.py's `basic_analysis` returns the
valid empty frequency table — distinct from the `InvalidInput` rejection of
an empty upload — while backend.py's `basic_analysis` raises `ValueError`
from `max` over the empty hour histogram instead of reaching its own
`No errors found` branch. -/
theorem basic_analysis_no_errors_behaviour :
    basic_analysis2 "hello" = Except.ok [] ∧
    basic_analysisB "hello" = Except.error "ValueError: max() arg is an empty sequence" ∧
    basic_analysis2 "" =
      Except.error "HTTPException 400: File is empty or contains no valid content." :=
  ⟨rfl, rfl, rfl⟩

/-! ## Basic analysis raises whenever no line has a timestamped error (C9) -/

lemma extractStep_no_ts (md : Metadata) (line : String)
    (h : lineTsError line = false) :
    (∃ e, extractStep md line = .error e) ∨ extractStep md line = .ok md := by
  unfold lineTsError at h
  unfold extractStep
  cases hb : bracketToken line.toList with
  | none => simp [hb]
  | some ts =>
    cases hm : searchErrorMarker line.toList with
    | none => simp [hm]
    | some g =>
      rw [hb, hm] at h
      simp only [Option.isSome_some, Bool.true_and] at h
      cases hp : strptime ts with
      | none => simp [hp]
      | some dt => rw [hp] at h; simp at h

lemma extract_fold_no_ts (lines : List String)
    (h : ∀ line ∈ lines, lineTsError line = false) :
    ∀ md : Metadata,
      (∃ e, lines.foldlM extractStep md = .error e) ∨
      lines.foldlM extractStep md = .ok md := by
  induction lines with
  | nil => intro md; right; rfl
  | cons l ls ih =>
    intro md
    have hl := h l (by simp)
    have hrest : ∀ line ∈ ls, lineTsError line = false := fun x hx => h x (by simp [hx])
    rw [List.foldlM_cons]
    rcases extractStep_no_ts md l hl with ⟨e, he⟩ | hok
    · left
      exact ⟨e, by rw [he]; rfl⟩
    · rw [hok]
      simpa using ih hrest md

/-- C9: for every valid document in which no line carries both a parseable
bracketed timestamp and an `ERROR`-plus-whitespace marker, backend.py's
`basic_analysis` raises instead of answering: either the extraction itself
raises on a malformed bracketed timestamp, or it completes with an empty
hour histogram and `max` raises on it — even when the error-frequency table
is nonempty. -/
theorem basic_analysis_raises_without_timestamped_errors (content : String)
    (h1 : pyStrip content ≠ "")
    (h2 : ∀ line ∈ pySplitlines (pyStrip content), lineTsError line = false) :
    ∃ e, basic_analysisB content = .error e := by
  have hval : validateContent content = .ok (pyStrip content) := by
    unfold validateContent
    rw [if_neg h1]
  rcases extract_fold_no_ts (pySplitlines (pyStrip content)) h2 ⟨0, [], []⟩ with ⟨e, he⟩ | hok
  · refine ⟨e, ?_⟩
    unfold basic_analysisB extract_metadata_with_timestamps
    rw [hval]
    simp only [he]
  · refine ⟨"ValueError: max() arg is an empty sequence", ?_⟩
    unfold basic_analysisB extract_metadata_with_timestamps
    rw [hval]
    simp only [hok]
    rfl

/-- Witness for C9 on `"ERROR 404: x"`: a valid document whose only line
matches the error pattern (nonempty table) but has no bracketed timestamp,
and the endpoint raises. -/
theorem basic_analysis_raises_witness :
    regex_logs "ERROR 404: x" ≠ [] ∧
    ∃ e, basic_analysisB "ERROR 404: x" = .error e :=
  ⟨by decide,
   basic_analysis_raises_without_timestamped_errors "ERROR 404: x" (by decide) (by decide)⟩

/-! ## Summarization failure semantics (C5) -/

lemma process_chunk_summarize (g : String → Except String String) (c : String) :
    process_chunk_async c (summarizeChain g) = g c := rfl

lemma summarize_chunks_ok_prefix_error (g : String → Except String String) (e : String) :
    ∀ (pre : List String) (ch : String) (post : List String),
      (∀ c ∈ pre, ∃ s, g c = .ok s) → g ch = .error e →
      summarize_chunks_async (pre ++ ch :: post) (summarizeChain g) = .error e := by
  intro pre
  induction pre with
  | nil =>
    intro ch post _ hch
    simp only [List.nil_append]
    unfold summarize_chunks_async
    rw [List.mapM_cons, process_chunk_summarize, hch]
    rfl
  | cons p ps ih =>
    intro ch post hpre hch
    obtain ⟨s, hs⟩ := hpre p (by simp)
    have hps : ∀ c ∈ ps, ∃ t, g c = .ok t := fun c hc => hpre c (by simp [hc])
    have ih2 := ih ch post hps hch
    unfold summarize_chunks_async at ih2 ⊢
    simp only [List.cons_append, List.mapM_cons, process_chunk_summarize, hs] at ih2 ⊢
    rw [ih2]
    rfl

/-- C5 amended: when, among the first ten chunks actually submitted, the
generation call of exactly one chunk fails, the whole `summary_raw_log`
call fails by propagating that call's *raw* backend error — the
`asyncio.gather` sits outside the `try`, so no `partial` stage label and no
chunk id is attached — and the final reduction chain `f` is never invoked
(the outcome is the same for every `f`). -/
theorem summary_partial_failure_propagates_raw (content : String)
    (g f : String → Except String String) (pre post : List String) (ch e : String)
    (h0 : pyStrip content ≠ "")
    (hsplit : (split_log_content_with_metadata (pyStrip content)).1.take 10 =
      pre ++ ch :: post)
    (hpre : ∀ c ∈ pre, ∃ s, g c = .ok s)
    (hch : g ch = .error e) :
    summary_raw_log g f content = .error e := by
  have hval : validateContent content = .ok (pyStrip content) := by
    unfold validateContent
    rw [if_neg h0]
  unfold summary_raw_log
  rw [hval]
  simp only [hsplit, summarize_chunks_ok_prefix_error g e pre ch post hpre hch]

/-- Witness for C5 (amended) on the one-chunk document `"hello"` with a
backend that fails on it. -/
theorem summary_partial_failure_witness :
    summary_raw_log (fun _ => Except.error "boom") (fun _ => Except.ok "final") "hello" =
      Except.error "boom" :=
  summary_partial_failure_propagates_raw "hello" (fun _ => Except.error "boom")
    (fun _ => Except.ok "final") [] [] "hello" "boom" (by decide) (by rfl)
    (by intro c hc; simp at hc) rfl

/-- A 3604-character document that the default bound 3500 splits into two
chunks: one oversized 3601-character line and the line `bbb`. -/
def bigLine : List Char := List.replicate 3600 'a'

def bigDoc : String := String.mk bigLine ++ "\nbbb"

/-- A backend failing exactly on the oversized first chunk. -/
def genFailLong : String → Except String String :=
  fun s => if 1000 ≤ s.length then .error "boom" else .ok "ok"

/-- A backend failing exactly on the short second chunk, with the same
message. -/
def genFailShort : String → Except String String :=
  fun s => if 1000 ≤ s.length then .ok "ok" else .error "boom"

lemma bigDoc_toList : bigDoc.toList = bigLine ++ '\n' :: ['b', 'b', 'b'] := by
  show (String.mk bigLine ++ "\nbbb").data = _
  rw [String.data_append]

lemma bigLine_cons : bigLine = 'a' :: List.replicate 3599 'a' := by
  unfold bigLine
  rw [show (3600 : Nat) = 3599 + 1 by norm_num, List.replicate_succ]

lemma segmentLines_replicate (l : List Char) :
    ∀ k, segmentLines (List.replicate k 'a' ++ '\n' :: l) =
      (List.replicate k 'a' ++ ['\n']) :: segmentLines l := by
  intro k
  induction k with
  | zero => simp [segmentLines]
  | succ k ih =>
    rw [List.replicate_succ, List.cons_append]
    simp only [segmentLines, ih]
    simp [List.replicate_succ]

lemma dropWhile_cons_of_false {p : Char → Bool} {c : Char} (l : List Char) (h : p c = false) :
    (c :: l).dropWhile p = c :: l := by
  simp [List.dropWhile, h]

lemma pyStrip_bigDoc : pyStrip bigDoc = bigDoc := by
  have h1 : bigDoc.toList.dropWhile pyIsSpace = bigDoc.toList := by
    rw [bigDoc_toList, bigLine_cons, List.cons_append]
    exact dropWhile_cons_of_false _ (by decide)
  have hrev : ('\n' :: ['b', 'b', 'b']).reverse = ['b', 'b', 'b', '\n'] := by decide
  have h2 : bigDoc.toList.reverse.dropWhile pyIsSpace = bigDoc.toList.reverse := by
    rw [bigDoc_toList, List.reverse_append, hrev]
    simp only [List.cons_append]
    exact dropWhile_cons_of_false _ (by decide)
  unfold pyStrip stripChars
  rw [h1, h2, List.reverse_reverse]
  rfl

lemma bigDoc_ne_empty : bigDoc ≠ "" := by
  intro hcon
  have h := congrArg String.data hcon
  rw [show bigDoc.data = bigDoc.toList from rfl, bigDoc_toList, bigLine_cons,
    List.cons_append] at h
  exact List.noConfusion h

lemma chunkGreedy_cons_empty_oversized (n : Nat) (seg : List Char) (segs : List (List Char))
    (h : n < seg.length) :
    chunkGreedy n (seg :: segs) [] = seg :: chunkGreedy n segs [] := by
  rw [chunkGreedy]
  simp only [List.isEmpty_nil, if_true]
  rw [if_pos h]

lemma chunkGreedy_cons_empty_fits (n : Nat) (seg : List Char) (segs : List (List Char))
    (h : ¬ n < seg.length) :
    chunkGreedy n (seg :: segs) [] = chunkGreedy n segs seg := by
  rw [chunkGreedy]
  simp only [List.isEmpty_nil, if_true]
  rw [if_neg h]

lemma chunkGreedy_nil_nonempty (n : Nat) (cur : List Char) (h : cur.isEmpty = false) :
    chunkGreedy n [] cur = [cur] := by
  rw [chunkGreedy, h]
  simp

lemma bigSeg_length : (List.replicate 3600 'a' ++ ['\n'] : List Char).length = 3601 := by
  rw [List.length_append, List.length_replicate, List.length_singleton]

lemma chunks_bigDoc :
    (split_log_content_with_metadata bigDoc).1 =
      [String.mk (bigLine ++ ['\n']), "bbb"] := by
  unfold split_log_content_with_metadata splitChunks
  rw [show bigDoc.toList = List.replicate 3600 'a' ++ '\n' :: ['b', 'b', 'b'] from bigDoc_toList]
  rw [segmentLines_replicate]
  have hseg : segmentLines ['b', 'b', 'b'] = [['b', 'b', 'b']] := by decide
  rw [hseg]
  rw [chunkGreedy_cons_empty_oversized _ _ _ (by rw [bigSeg_length]; norm_num)]
  rw [chunkGreedy_cons_empty_fits _ _ _ (by norm_num)]
  rw [chunkGreedy_nil_nonempty _ _ (by decide)]
  rfl

lemma bigChunk_length : 1000 ≤ (String.mk (bigLine ++ ['\n'])).length := by
  have h : (String.mk (bigLine ++ ['\n'])).length = 3601 := by
    unfold bigLine
    rw [String.length_mk]
    exact bigSeg_length
  rw [h]
  norm_num

lemma genFailLong_big : genFailLong (String.mk (bigLine ++ ['\n'])) = .error "boom" := by
  unfold genFailLong
  rw [if_pos bigChunk_length]

lemma genFailShort_big : genFailShort (String.mk (bigLine ++ ['\n'])) = .ok "ok" := by
  unfold genFailShort
  rw [if_pos bigChunk_length]

lemma genFailLong_bbb : genFailLong "bbb" = .ok "ok" := rfl

lemma genFailShort_bbb : genFailShort "bbb" = .error "boom" := rfl

/-- C5 counterexample: on `bigDoc` (two chunks), a backend failing only on
chunk 0 and a backend failing only on chunk 1 make `summary_raw_log` fail
with the *identical* value `Except.error "boom"` — the raw backend message,
with no `partial` stage label and nothing identifying which chunk failed,
although the failing chunk ids (0 resp. 1) differ.  No function of the
operation's result can recover the failing chunk id, refuting the claim as
stated; the final reduction call is indeed never issued. -/
theorem summary_failure_counterexample :
    summary_raw_log genFailLong (fun _ => Except.ok "final") bigDoc =
      summary_raw_log genFailShort (fun _ => Except.ok "final") bigDoc ∧
    summary_raw_log genFailLong (fun _ => Except.ok "final") bigDoc = Except.error "boom" ∧
    firstFailingChunk genFailLong (split_log_content_with_metadata (pyStrip bigDoc)).1 =
      some 0 ∧
    firstFailingChunk genFailShort (split_log_content_with_metadata (pyStrip bigDoc)).1 =
      some 1 := by
  have hval : validateContent bigDoc = .ok bigDoc := by
    unfold validateContent
    rw [pyStrip_bigDoc, if_neg bigDoc_ne_empty]
  have htake : (split_log_content_with_metadata bigDoc).1.take 10 =
      [String.mk (bigLine ++ ['\n']), "bbb"] := by
    rw [chunks_bigDoc]
    rfl
  have hlong : summarize_chunks_async [String.mk (bigLine ++ ['\n']), "bbb"]
      (summarizeChain genFailLong) = .error "boom" := by
    unfold summarize_chunks_async
    rw [List.mapM_cons, process_chunk_summarize, genFailLong_big]
    rfl
  have hshort : summarize_chunks_async [String.mk (bigLine ++ ['\n']), "bbb"]
      (summarizeChain genFailShort) = .error "boom" := by
    unfold summarize_chunks_async
    rw [List.mapM_cons, process_chunk_summarize, genFailShort_big, List.mapM_cons,
      process_chunk_summarize, genFailShort_bbb]
    rfl
  have e1 : summary_raw_log genFailLong (fun _ => Except.ok "final") bigDoc =
      Except.error "boom" := by
    unfold summary_raw_log
    rw [hval]
    simp only [pyStrip_bigDoc, htake, hlong]
  have e2 : summary_raw_log genFailShort (fun _ => Except.ok "final") bigDoc =
      Except.error "boom" := by
    unfold summary_raw_log
    rw [hval]
    simp only [pyStrip_bigDoc, htake, hshort]
  refine ⟨e1.trans e2.symm, e1, ?_, ?_⟩
  · rw [pyStrip_bigDoc, chunks_bigDoc]
    unfold firstFailingChunk
    rw [genFailLong_big]
  · rw [pyStrip_bigDoc, chunks_bigDoc]
    unfold firstFailingChunk
    rw [genFailShort_big]
    unfold firstFailingChunk
    rw [genFailShort_bbb]
    rfl

/-! ## Lines whose `ERROR` token is directly followed by a colon (C10) -/

lemma toList_append (a b : String) : (a ++ b).toList = a.toList ++ b.toList :=
  String.data_append a b

lemma markerHere_of_ne_E {c : Char} (tl : List Char) (hc : c ≠ 'E') :
    markerHere (c :: tl) = none := by
  rcases tl with _ | ⟨a, _ | ⟨b, _ | ⟨d, _ | ⟨e, _ | ⟨f, tl⟩⟩⟩⟩⟩ <;> simp [markerHere, hc]

lemma matchERRORHere_of_ne_E {c : Char} (tl : List Char) (hc : c ≠ 'E') :
    matchERRORHere (c :: tl) = none := by
  rcases tl with _ | ⟨a, _ | ⟨b, _ | ⟨d, _ | ⟨e, tl⟩⟩⟩⟩ <;> simp [matchERRORHere, hc]

lemma searchError_append_of_ne_E (xs rest : List Char) (h : ∀ c ∈ xs, c ≠ 'E') :
    searchError (xs ++ rest) = searchError rest := by
  induction xs with
  | nil => rfl
  | cons x xs ih =>
    have hx : x ≠ 'E' := h x (by simp)
    have hxs : ∀ c ∈ xs, c ≠ 'E' := fun c hc => h c (by simp [hc])
    simp only [List.cons_append, searchError, matchERRORHere_of_ne_E _ hx]
    exact ih hxs

lemma searchErrorMarker_cons_none {c : Char} {rest : List Char}
    (h : searchErrorMarker (c :: rest) = none) :
    markerHere (c :: rest) = none ∧ searchErrorMarker rest = none := by
  cases hm : markerHere (c :: rest) with
  | some r =>
    simp only [searchErrorMarker, hm] at h
    exact Option.noConfusion h
  | none =>
    simp only [searchErrorMarker, hm] at h
    exact ⟨rfl, h⟩

lemma markerHere_none_of_search_none :
    ∀ cs : List Char, searchErrorMarker cs = none →
      ∀ ds, ds <:+ cs → markerHere ds = none := by
  intro cs
  induction cs with
  | nil =>
    intro _ ds hds
    rw [List.suffix_nil.mp hds]
    rfl
  | cons c rest ih =>
    intro h ds hds
    obtain ⟨h1, h2⟩ := searchErrorMarker_cons_none h
    rcases List.suffix_cons_iff.mp hds with heq | hds'
    · rw [heq]; exact h1
    · exact ih h2 ds hds'

lemma searchErrorMarker_none_of_suffixes :
    ∀ cs : List Char, (∀ ds, ds <:+ cs → markerHere ds = none) →
      searchErrorMarker cs = none := by
  intro cs
  induction cs with
  | nil => intro _; rfl
  | cons c rest ih =>
    intro h
    have h1 : markerHere (c :: rest) = none := h _ (List.suffix_refl _)
    have h2 := ih (fun ds hds => h ds (hds.trans (List.suffix_cons c rest)))
    simp only [searchErrorMarker, h1, h2]

lemma suffix_append_split {ds a b : List Char} (h : ds <:+ a ++ b) :
    ds <:+ b ∨ ∃ p, p <:+ a ∧ p ≠ [] ∧ ds = p ++ b := by
  induction a with
  | nil => left; simpa using h
  | cons x a ih =>
    rcases List.suffix_cons_iff.mp (by simpa using h) with heq | hds
    · right
      exact ⟨x :: a, List.suffix_refl _, by simp, by simpa using heq⟩
    · rcases ih hds with hb | ⟨p, hp1, hp2, hp3⟩
      · left; exact hb
      · right; exact ⟨p, hp1.trans (List.suffix_cons x a), hp2, hp3⟩

lemma digitChar_mod_isDigit (n : Nat) : (Nat.digitChar (n % 10)).isDigit = true := by
  have hlt : n % 10 < 10 := Nat.mod_lt _ (by norm_num)
  set m := n % 10 with hm
  interval_cases m <;> decide

lemma pad2_chars (n : Nat) : ∀ c ∈ (pad2 n).toList, c.isDigit = true := by
  intro c hc
  unfold pad2 at hc
  rw [show (String.mk [Nat.digitChar (n / 10 % 10), Nat.digitChar (n % 10)]).toList =
    [Nat.digitChar (n / 10 % 10), Nat.digitChar (n % 10)] from rfl] at hc
  simp only [List.mem_cons, List.not_mem_nil, or_false] at hc
  rcases hc with h | h
  · rw [h]; exact digitChar_mod_isDigit _
  · rw [h]; exact digitChar_mod_isDigit _

lemma pad4_chars (n : Nat) : ∀ c ∈ (pad4 n).toList, c.isDigit = true := by
  intro c hc
  unfold pad4 at hc
  rw [show (String.mk [Nat.digitChar (n / 1000 % 10), Nat.digitChar (n / 100 % 10),
      Nat.digitChar (n / 10 % 10), Nat.digitChar (n % 10)]).toList =
    [Nat.digitChar (n / 1000 % 10), Nat.digitChar (n / 100 % 10),
      Nat.digitChar (n / 10 % 10), Nat.digitChar (n % 10)] from rfl] at hc
  simp only [List.mem_cons, List.not_mem_nil, or_false] at hc
  rcases hc with h | h | h | h
  all_goals rw [h]
  all_goals exact digitChar_mod_isDigit _

lemma fmtTimestamp_chars (y mo d h mi sec : Nat) :
    ∀ c ∈ (fmtTimestamp y mo d h mi sec).toList,
      c.isDigit = true ∨ c = '-' ∨ c = ' ' ∨ c = ':' := by
  intro c hc
  unfold fmtTimestamp at hc
  simp only [toList_append, List.mem_append] at hc
  rcases hc with ((((((((((hc | hc) | hc) | hc) | hc) | hc) | hc) | hc) | hc) | hc) | hc)
  · left; exact pad4_chars _ c hc
  · right; left
    rw [show ("-" : String).toList = ['-'] from rfl] at hc
    simpa using hc
  · left; exact pad2_chars _ c hc
  · right; left
    rw [show ("-" : String).toList = ['-'] from rfl] at hc
    simpa using hc
  · left; exact pad2_chars _ c hc
  · right; right; left
    rw [show (" " : String).toList = [' '] from rfl] at hc
    simpa using hc
  · left; exact pad2_chars _ c hc
  · right; right; right
    rw [show (":" : String).toList = [':'] from rfl] at hc
    simpa using hc
  · left; exact pad2_chars _ c hc
  · right; right; right
    rw [show (":" : String).toList = [':'] from rfl] at hc
    simpa using hc
  · left; exact pad2_chars _ c hc

lemma splitlinesAux_no_break :
    ∀ (cs acc : List Char), (∀ c ∈ cs, c ≠ '\n' ∧ c ≠ '\r') → (acc = [] → cs ≠ []) →
      splitlinesAux cs acc = [String.mk (acc.reverse ++ cs)] := by
  intro cs
  induction cs with
  | nil =>
    intro acc _ hne
    cases acc with
    | nil => exact absurd rfl (hne rfl)
    | cons a as => simp [splitlinesAux]
  | cons c rest ih =>
    intro acc h _
    have hc := h c (by simp)
    have hrest : ∀ x ∈ rest, x ≠ '\n' ∧ x ≠ '\r' := fun x hx => h x (by simp [hx])
    rw [show splitlinesAux (c :: rest) acc = splitlinesAux rest (c :: acc) from by
      rw [splitlinesAux.eq_def]
      cases rest with
      | nil => simp [hc.1, hc.2]
      | cons d rest' => simp [hc.1, hc.2]]
    rw [ih (c :: acc) hrest (by simp)]
    simp

lemma pySplitlines_single (s : String) (hne : s.toList ≠ [])
    (h : ∀ c ∈ s.toList, c ≠ '\n' ∧ c ≠ '\r') : pySplitlines s = [s] := by
  unfold pySplitlines
  rw [splitlinesAux_no_break s.toList [] h (fun _ => hne)]
  simp

lemma extract_single_no_marker (line : String)
    (hne : line.toList ≠ [])
    (hnb : ∀ c ∈ line.toList, c ≠ '\n' ∧ c ≠ '\r')
    (hm : searchErrorMarker line.toList = none) :
    extract_metadata_with_timestamps line = .ok ⟨0, [], []⟩ := by
  unfold extract_metadata_with_timestamps
  rw [pySplitlines_single line hne hnb]
  simp only [List.foldlM_cons, List.foldlM_nil]
  have hm2 : searchErrorMarker line.data = none := hm
  cases hb : bracketToken line.data <;> simp [extractStep, hb, hm2]

/-- The error-marker regex finds nothing on a line
`"[" ++ T ++ "] ERROR: " ++ desc` whose bracketed token is made of digits,
dashes, spaces and colons: the colon directly after `ERROR` refuses the
required whitespace, and by hypothesis the description contains no marker of
its own. -/
lemma c10_marker_none (T desc : String)
    (hT : ∀ c ∈ T.toList, c.isDigit = true ∨ c = '-' ∨ c = ' ' ∨ c = ':')
    (hdesc : searchErrorMarker desc.toList = none) :
    searchErrorMarker ("[" ++ T ++ "] ERROR: " ++ desc).toList = none := by
  apply searchErrorMarker_none_of_suffixes
  intro ds hds
  have hline : ("[" ++ T ++ "] ERROR: " ++ desc).toList =
      ('[' :: T.toList ++ [']', ' ']) ++ (['E', 'R', 'R', 'O', 'R', ':', ' '] ++ desc.toList) := by
    simp only [toList_append]
    rw [show ("[" : String).toList = ['['] from rfl,
      show ("] ERROR: " : String).toList = [']', ' ', 'E', 'R', 'R', 'O', 'R', ':', ' '] from rfl]
    simp
  rw [hline] at hds
  rcases suffix_append_split hds with hds1 | ⟨p, hp1, hp2, hp3⟩
  · rcases suffix_append_split hds1 with hds2 | ⟨q, hq1, hq2, hq3⟩
    · exact markerHere_none_of_search_none _ hdesc ds hds2
    · subst hq3
      simp only [List.suffix_cons_iff, List.suffix_nil] at hq1
      rcases hq1 with h | h | h | h | h | h | h | h
      · subst h
        simp [markerHere, pyIsSpace]
      · subst h
        exact markerHere_of_ne_E _ (by decide)
      · subst h
        exact markerHere_of_ne_E _ (by decide)
      · subst h
        exact markerHere_of_ne_E _ (by decide)
      · subst h
        exact markerHere_of_ne_E _ (by decide)
      · subst h
        exact markerHere_of_ne_E _ (by decide)
      · subst h
        exact markerHere_of_ne_E _ (by decide)
      · exact absurd h hq2
  · subst hp3
    obtain ⟨c, t, rfl⟩ := List.exists_cons_of_ne_nil hp2
    have hmem : c ∈ '[' :: T.toList ++ [']', ' '] := hp1.subset (by simp)
    have hc : c ≠ 'E' := by
      simp only [List.cons_append, List.mem_cons, List.mem_append] at hmem
      rcases hmem with h | h | h
      · rw [h]; decide
      · rcases hT c h with hd | hd | hd | hd
        · intro hcon
          rw [hcon] at hd
          exact absurd hd (by decide)
        · rw [hd]; decide
        · rw [hd]; decide
        · rw [hd]; decide
      · rcases h with h | h
        · rw [h]; decide
        · rw [show c = ' ' from by simpa using h]; decide
    rw [List.cons_append]
    exact markerHere_of_ne_E _ hc

lemma dotPlus_isSome {cs : List Char} (hne : cs ≠ []) (h : ∀ c ∈ cs, c ≠ '\n') :
    (dotPlus cs).isSome = true := by
  obtain ⟨c, t, rfl⟩ := List.exists_cons_of_ne_nil hne
  have hc : c ≠ '\n' := h c (by simp)
  simp [dotPlus, List.takeWhile_cons, hc]

lemma starSpacesThen_isSome :
    ∀ cs : List Char, cs ≠ [] → (∀ c ∈ cs, c ≠ '\n') →
      (starSpacesThen cs).isSome = true := by
  intro cs
  induction cs with
  | nil => intro hne _; exact absurd rfl hne
  | cons c rest ih =>
    intro _ h
    by_cases hs : pyIsSpace c = true
    · simp only [starSpacesThen, hs, if_true]
      cases hrest : starSpacesThen rest with
      | some s => simp
      | none => exact dotPlus_isSome (by simp) h
    · simp only [starSpacesThen]
      rw [if_neg hs]
      exact dotPlus_isSome (by simp) h

lemma colonOpt_eq_of_ne {c : Char} (rest : List Char) (hc : c ≠ ':') :
    colonOpt (c :: rest) = starSpacesThen (c :: rest) := by
  rw [colonOpt.eq_def]
  split
  · rename_i rest2 heq
    exact absurd heq (by simp [hc])
  · rfl

lemma colonOpt_isSome :
    ∀ cs : List Char, cs ≠ [] → (∀ c ∈ cs, c ≠ '\n') →
      (colonOpt cs).isSome = true := by
  intro cs hne h
  obtain ⟨c, t, rfl⟩ := List.exists_cons_of_ne_nil hne
  by_cases hc : c = ':'
  · subst hc
    simp only [colonOpt]
    cases hrest : starSpacesThen t with
    | some s => simp
    | none => exact starSpacesThen_isSome _ (by simp) h
  · rw [colonOpt_eq_of_ne t hc]
    exact starSpacesThen_isSome _ (by simp) h

lemma option_isSome_map {α β : Type} (f : α → β) (o : Option α) :
    (o.map f).isSome = o.isSome := by
  cases o <;> rfl

lemma digitsOpt_isSome :
    ∀ cs : List Char, cs ≠ [] → (∀ c ∈ cs, c ≠ '\n') →
      (digitsOpt cs).isSome = true := by
  intro cs hne h
  rw [digitsOpt.eq_def]
  split
  · next a b c rest =>
    by_cases hd : (a.isDigit && b.isDigit && c.isDigit) = true
    · rw [if_pos hd]
      cases hco : colonOpt rest with
      | some s => simp
      | none =>
        rw [option_isSome_map]
        exact colonOpt_isSome (a :: b :: c :: rest) (by simp) h
    · rw [if_neg hd, option_isSome_map]
      exact colonOpt_isSome (a :: b :: c :: rest) (by simp) h
  · next =>
    rw [option_isSome_map]
    exact colonOpt_isSome _ hne h

lemma spacesStarDigits_isSome :
    ∀ cs : List Char, cs ≠ [] → (∀ c ∈ cs, c ≠ '\n') →
      (spacesStarDigits cs).isSome = true := by
  intro cs
  induction cs with
  | nil => intro hne _; exact absurd rfl hne
  | cons c rest ih =>
    intro _ h
    by_cases hs : pyIsSpace c = true
    · simp only [spacesStarDigits, hs, if_true]
      cases hrest : spacesStarDigits rest with
      | some s => simp
      | none => exact digitsOpt_isSome _ (by simp) h
    · simp only [spacesStarDigits]
      rw [if_neg hs]
      exact digitsOpt_isSome _ (by simp) h

lemma searchError_at_ERROR_isSome (tail : List Char)
    (h : (matchAfterERROR tail).isSome = true) :
    (searchError ('E' :: 'R' :: 'R' :: 'O' :: 'R' :: tail)).isSome = true := by
  obtain ⟨r, hr⟩ := Option.isSome_iff_exists.mp h
  simp [searchError, matchERRORHere, hr]

lemma dropWhile_append_of_ne_nil {p : Char → Bool} {l₁ : List Char} (l₂ : List Char)
    (h : l₁.dropWhile p ≠ []) :
    (l₁ ++ l₂).dropWhile p = l₁.dropWhile p ++ l₂ := by
  induction l₁ with
  | nil => exact absurd rfl h
  | cons x xs ih =>
    by_cases hx : p x = true
    · simp only [List.cons_append, List.dropWhile_cons, hx, if_true] at h ⊢
      exact ih h
    · simp [List.dropWhile_cons, hx]

lemma stripChars_reverse_ne_nil {l : List Char} (h : stripChars l ≠ []) :
    l.reverse.dropWhile pyIsSpace ≠ [] := by
  intro hcon
  apply h
  unfold stripChars
  have hall : ∀ c ∈ l.reverse, pyIsSpace c := List.dropWhile_eq_nil_iff.mp hcon
  have h1 : l.dropWhile pyIsSpace = [] :=
    List.dropWhile_eq_nil_iff.mpr (fun c hc => hall c (by simp [hc]))
  rw [h1]
  simp

/-- On the C10 line shape, the colon-replaced and stripped text is the
bracketed-token region followed by `ERROR`, two spaces (the colon having
become a space) and the trailing-stripped replaced description. -/
lemma c10_transform (T desc : String)
    (hsub : pyStrip (pyReplaceColon desc) ≠ "") :
    ∃ D, (transformLine ("[" ++ T ++ "] ERROR: " ++ desc)).toList =
        ('[' :: T.toList.map replColon ++ [']', ' ']) ++
          ('E' :: 'R' :: 'R' :: 'O' :: 'R' :: ' ' :: ' ' :: D) ∧
      D ≠ [] ∧ ∀ c ∈ D, c ∈ desc.toList.map replColon := by
  have hlineL : ("[" ++ T ++ "] ERROR: " ++ desc).toList =
      '[' :: T.toList ++ ([']', ' ', 'E', 'R', 'R', 'O', 'R', ':', ' '] ++ desc.toList) := by
    simp only [toList_append]
    rw [show ("[" : String).toList = ['['] from rfl,
      show ("] ERROR: " : String).toList = [']', ' ', 'E', 'R', 'R', 'O', 'R', ':', ' '] from rfl]
    simp
  have hmapped : ("[" ++ T ++ "] ERROR: " ++ desc).toList.map replColon =
      ('[' :: T.toList.map replColon ++ [']', ' ', 'E', 'R', 'R', 'O', 'R', ' ', ' ']) ++
        desc.toList.map replColon := by
    rw [hlineL]
    simp [replColon]
  set Dall := desc.toList.map replColon with hDall
  have hstrip : stripChars Dall ≠ [] := by
    intro hcon
    apply hsub
    unfold pyStrip
    rw [show (pyReplaceColon desc).toList = Dall from rfl, hcon]
  have hrevne : Dall.reverse.dropWhile pyIsSpace ≠ [] := stripChars_reverse_ne_nil hstrip
  refine ⟨(Dall.reverse.dropWhile pyIsSpace).reverse, ?_, by simpa using hrevne, ?_⟩
  · unfold transformLine pyStrip
    rw [show (pyReplaceColon ("[" ++ T ++ "] ERROR: " ++ desc)).toList =
        ("[" ++ T ++ "] ERROR: " ++ desc).toList.map replColon from rfl, hmapped]
    unfold stripChars
    rw [show ('[' :: T.toList.map replColon ++ [']', ' ', 'E', 'R', 'R', 'O', 'R', ' ', ' ']) ++
          Dall = '[' :: (T.toList.map replColon ++ [']', ' ', 'E', 'R', 'R', 'O', 'R', ' ', ' '] ++
          Dall) from by simp]
    rw [dropWhile_cons_of_false _ (by decide)]
    rw [show ('[' : Char) :: (T.toList.map replColon ++ [']', ' ', 'E', 'R', 'R', 'O', 'R', ' ', ' '] ++
          Dall) = ('[' :: T.toList.map replColon ++ [']', ' ', 'E', 'R', 'R', 'O', 'R', ' ', ' '])
          ++ Dall from by simp]
    rw [List.reverse_append, dropWhile_append_of_ne_nil _ hrevne, List.reverse_append,
      List.reverse_reverse]
    rw [show (String.mk (('[' :: T.toList.map replColon ++
        [']', ' ', 'E', 'R', 'R', 'O', 'R', ' ', ' ']) ++
        (Dall.reverse.dropWhile pyIsSpace).reverse)).toList =
      ('[' :: T.toList.map replColon ++ [']', ' ', 'E', 'R', 'R', 'O', 'R', ' ', ' ']) ++
        (Dall.reverse.dropWhile pyIsSpace).reverse from rfl]
    simp
  · intro c hc
    have h1 : c ∈ Dall.reverse.dropWhile pyIsSpace := by simpa using hc
    have h2 : c ∈ Dall.reverse := (List.dropWhile_sublist pyIsSpace).subset h1
    simpa using h2

lemma replColon_of_T {c : Char}
    (h : c.isDigit = true ∨ c = '-' ∨ c = ' ' ∨ c = ':') : replColon c ≠ 'E' := by
  unfold replColon
  split
  · decide
  · rcases h with hd | hd | hd | hd
    · intro hcon
      rw [hcon] at hd
      exact absurd hd (by decide)
    · rw [hd]; decide
    · rw [hd]; decide
    · next hne => exact absurd hd hne

/-- C10 amended: a line `"[T] ERROR: description"`, where `T` renders
timestamp fields and the description is a line of text that does not itself
contain an `ERROR`-plus-whitespace marker and is not all whitespace and
colons, contributes exactly one record to the frequency table (computed on
the colon-stripped line) while contributing nothing to `total_errors`, the
per-code timestamp lists or the hour histogram (whose marker regex requires
whitespace directly after `ERROR` in the raw line, where this line has the
colon). -/
theorem colon_after_error_line (y mo d h mi sec : Nat) (desc : String)
    (hmark : searchErrorMarker desc.toList = none)
    (hsub : pyStrip (pyReplaceColon desc) ≠ "")
    (hnl : ∀ c ∈ desc.toList, c ≠ '\n' ∧ c ≠ '\r') :
    sumCounts (regex_logs
        ("[" ++ fmtTimestamp y mo d h mi sec ++ "] ERROR: " ++ desc)) = 1 ∧
    extract_metadata_with_timestamps
        ("[" ++ fmtTimestamp y mo d h mi sec ++ "] ERROR: " ++ desc) =
      .ok ⟨0, [], []⟩ := by
  have hTchars := fmtTimestamp_chars y mo d h mi sec
  have hlineL : ("[" ++ fmtTimestamp y mo d h mi sec ++ "] ERROR: " ++ desc).toList =
      '[' :: (fmtTimestamp y mo d h mi sec).toList ++
        ([']', ' ', 'E', 'R', 'R', 'O', 'R', ':', ' '] ++ desc.toList) := by
    simp only [toList_append]
    rw [show ("[" : String).toList = ['['] from rfl,
      show ("] ERROR: " : String).toList = [']', ' ', 'E', 'R', 'R', 'O', 'R', ':', ' '] from rfl]
    simp
  have hnlLine : ∀ c ∈ ("[" ++ fmtTimestamp y mo d h mi sec ++ "] ERROR: " ++ desc).toList,
      c ≠ '\n' ∧ c ≠ '\r' := by
    intro c hc
    rw [hlineL] at hc
    simp only [List.cons_append, List.mem_cons, List.mem_append, List.not_mem_nil,
      false_or, or_false] at hc
    rcases hc with h | h | h | h | h | h | h | h | h | h | h | h
    · rw [h]; exact ⟨by decide, by decide⟩
    · rcases hTchars c h with hd | hd | hd | hd
      · exact ⟨fun hcon => absurd (hcon ▸ hd) (by decide),
               fun hcon => absurd (hcon ▸ hd) (by decide)⟩
      · rw [hd]; exact ⟨by decide, by decide⟩
      · rw [hd]; exact ⟨by decide, by decide⟩
      · rw [hd]; exact ⟨by decide, by decide⟩
    · rw [h]; exact ⟨by decide, by decide⟩
    · rw [h]; exact ⟨by decide, by decide⟩
    · rw [h]; exact ⟨by decide, by decide⟩
    · rw [h]; exact ⟨by decide, by decide⟩
    · rw [h]; exact ⟨by decide, by decide⟩
    · rw [h]; exact ⟨by decide, by decide⟩
    · rw [h]; exact ⟨by decide, by decide⟩
    · rw [h]; exact ⟨by decide, by decide⟩
    · rw [h]; exact ⟨by decide, by decide⟩
    · exact hnl c h
  have hneLine : ("[" ++ fmtTimestamp y mo d h mi sec ++ "] ERROR: " ++ desc).toList ≠ [] := by
    rw [hlineL]
    simp
  constructor
  · have hmatch : lineMatchesError
        ("[" ++ fmtTimestamp y mo d h mi sec ++ "] ERROR: " ++ desc) = true := by
      unfold lineMatchesError
      obtain ⟨D, hD, hDne, hDmem⟩ := c10_transform (fmtTimestamp y mo d h mi sec) desc hsub
      rw [hD]
      rw [searchError_append_of_ne_E _ _ ?front]
      case front =>
        intro c hc
        simp only [List.cons_append, List.mem_cons, List.mem_append, List.not_mem_nil,
          false_or, or_false] at hc
        rcases hc with h | h | h | h
        · rw [h]; decide
        · obtain ⟨c0, hc0, rfl⟩ := List.mem_map.mp h
          exact replColon_of_T (hTchars c0 hc0)
        · rw [h]; decide
        · rw [h]; decide
      apply searchError_at_ERROR_isSome
      rw [show matchAfterERROR (' ' :: ' ' :: D) = spacesStarDigits (' ' :: D) from by
        simp [matchAfterERROR, pyIsSpace]]
      apply spacesStarDigits_isSome
      · simp
      · intro c hc
        simp only [List.mem_cons] at hc
        rcases hc with h | h
        · rw [h]; decide
        · obtain ⟨c0, hc0, rfl⟩ := List.mem_map.mp (hDmem c h)
          exact replColon_ne_newline c0 (hnl c0 hc0).1
    unfold regex_logs
    rw [pySplitlines_single _ hneLine hnlLine, sumCounts_foldl]
    simp [List.filter, hmatch, sumCounts]
  · exact extract_single_no_marker _ hneLine hnlLine
      (c10_marker_none (fmtTimestamp y mo d h mi sec) desc hTchars hmark)

/-- Witness for C10 (amended) at the timestamp `2025-01-19 10:00:00` and the
description `disk full`. -/
theorem colon_after_error_line_witness :
    sumCounts (regex_logs
        ("[" ++ fmtTimestamp 2025 1 19 10 0 0 ++ "] ERROR: " ++ "disk full")) = 1 ∧
    extract_metadata_with_timestamps
        ("[" ++ fmtTimestamp 2025 1 19 10 0 0 ++ "] ERROR: " ++ "disk full") =
      .ok ⟨0, [], []⟩ :=
  colon_after_error_line 2025 1 19 10 0 0 "disk full" (by decide) (by decide) (by decide)

/-- C10 counterexample: the claim as stated quantifies over *every*
description, but when the description itself contains `ERROR` followed by
whitespace — here `"[2025-01-19 10:00:00] ERROR: ERROR 500 x"` — the marker
regex matches inside the description of the raw line, so the line *does*
increment `total_errors` and the hour histogram, contrary to the claim's
`increments neither`. -/
theorem colon_after_error_line_counterexample :
    extract_metadata_with_timestamps "[2025-01-19 10:00:00] ERROR: ERROR 500 x" =
      .ok ⟨1, [(some "500", [⟨2025, 1, 19, 10, 0, 0⟩])], [("2025-01-19 10:00:00", 1)]⟩ := by
  rfl

/-! ## CSV export (C6) -/

lemma digitChar_lt_isDigit {n : Nat} (h : n < 10) : (Nat.digitChar n).isDigit = true := by
  rw [show n = n % 10 from (Nat.mod_eq_of_lt h).symm]
  exact digitChar_mod_isDigit n

lemma natToStrAux_chars :
    ∀ n acc, (∀ c ∈ acc, c.isDigit = true) → ∀ c ∈ natToStrAux n acc, c.isDigit = true := by
  intro n
  induction n using Nat.strong_induction_on with
  | _ n ih =>
    intro acc hacc c hc
    rw [natToStrAux] at hc
    split at hc
    · next h =>
      rcases List.mem_cons.mp hc with h2 | h2
      · rw [h2]; exact digitChar_lt_isDigit h
      · exact hacc c h2
    · next h =>
      exact ih (n / 10)
        (Nat.div_lt_self (Nat.lt_of_lt_of_le (by norm_num) (Nat.le_of_not_lt h)) (by norm_num))
        (Nat.digitChar (n % 10) :: acc)
        (fun d hd => by
          rcases List.mem_cons.mp hd with h2 | h2
          · rw [h2]; exact digitChar_mod_isDigit n
          · exact hacc d h2)
        c hc

lemma natToStr_chars (n : Nat) : ∀ c ∈ (natToStr n).toList, c.isDigit = true := by
  intro c hc
  exact natToStrAux_chars n [] (by simp) c hc

/-- The code part of an aggregation key: three digits, or the literal
`N/A`. -/
def goodCode (c0 c1 c2 : Char) : Prop :=
  (c0.isDigit = true ∧ c1.isDigit = true ∧ c2.isDigit = true) ∨
    (c0 = 'N' ∧ c1 = '/' ∧ c2 = 'A')

/-- The shape of every key `regex_logs` inserts: `Error ` then a three-char
code, then `: ` and a description that is free of colons and line breaks
(it was matched inside a colon-replaced single line). -/
def goodKey (k : String) : Prop :=
  ∃ c0 c1 c2 dch,
    k.toList = 'E' :: 'r' :: 'r' :: 'o' :: 'r' :: ' ' :: c0 :: c1 :: c2 :: ':' :: ' ' :: dch ∧
    goodCode c0 c1 c2 ∧ ∀ c ∈ dch, c ≠ ':' ∧ c ≠ '\n' ∧ c ≠ '\r'

lemma dotPlus_result {cs : List Char} {s : String} (h : dotPlus cs = some s) :
    s.toList ≠ [] ∧ ∀ c ∈ s.toList, c ∈ cs := by
  unfold dotPlus at h
  by_cases he : (cs.takeWhile (fun c => c ≠ '\n')).isEmpty = true
  · rw [if_pos he] at h
    exact Option.noConfusion h
  · rw [if_neg he] at h
    simp only [Option.some.injEq] at h
    subst h
    constructor
    · show cs.takeWhile (fun c => c ≠ '\n') ≠ []
      simpa using he
    · intro c hc
      exact (List.takeWhile_sublist _).subset hc

lemma starSpacesThen_result :
    ∀ {cs : List Char} {s : String}, starSpacesThen cs = some s →
      s.toList ≠ [] ∧ ∀ c ∈ s.toList, c ∈ cs := by
  intro cs
  induction cs with
  | nil =>
    intro s h
    exact dotPlus_result h
  | cons c rest ih =>
    intro s h
    by_cases hs : pyIsSpace c = true
    · simp only [starSpacesThen, hs, if_true] at h
      cases hr : starSpacesThen rest with
      | some s2 =>
        rw [hr] at h
        simp only [Option.some.injEq] at h
        subst h
        obtain ⟨h1, h2⟩ := ih hr
        exact ⟨h1, fun d hd => by simp [h2 d hd]⟩
      | none =>
        rw [hr] at h
        exact dotPlus_result h
    · simp only [starSpacesThen] at h
      rw [if_neg hs] at h
      exact dotPlus_result h

lemma colonOpt_result {cs : List Char} {s : String} (h : colonOpt cs = some s) :
    s.toList ≠ [] ∧ ∀ c ∈ s.toList, c ∈ cs := by
  cases cs with
  | nil => exact starSpacesThen_result h
  | cons c rest =>
    by_cases hc : c = ':'
    · subst hc
      simp only [colonOpt] at h
      cases hr : starSpacesThen rest with
      | some s2 =>
        rw [hr] at h
        simp only [Option.some.injEq] at h
        subst h
        obtain ⟨h1, h2⟩ := starSpacesThen_result hr
        exact ⟨h1, fun d hd => by simp [h2 d hd]⟩
      | none =>
        rw [hr] at h
        exact starSpacesThen_result h
    · rw [colonOpt_eq_of_ne rest hc] at h
      exact starSpacesThen_result h

lemma digitsOpt_result {cs : List Char} {g : Option String} {s : String}
    (h : digitsOpt cs = some (g, s)) :
    (s.toList ≠ [] ∧ ∀ c ∈ s.toList, c ∈ cs) ∧
      ∀ str, g = some str →
        ∃ a b c2, str.toList = [a, b, c2] ∧
          a.isDigit = true ∧ b.isDigit = true ∧ c2.isDigit = true := by
  rw [digitsOpt.eq_def] at h
  split at h
  · next a b c2 rest =>
    by_cases hd : (a.isDigit && b.isDigit && c2.isDigit) = true
    · rw [if_pos hd] at h
      cases hco : colonOpt rest with
      | some s2 =>
        rw [hco] at h
        simp only [Option.some.injEq, Prod.mk.injEq] at h
        obtain ⟨hg, hs⟩ := h
        subst hs
        obtain ⟨h1, h2⟩ := colonOpt_result hco
        refine ⟨⟨h1, fun d hd2 => by simp [h2 d hd2]⟩, ?_⟩
        intro str hstr
        rw [← hg] at hstr
        simp only [Option.some.injEq] at hstr
        subst hstr
        simp only [Bool.and_eq_true] at hd
        exact ⟨a, b, c2, rfl, hd.1.1, hd.1.2, hd.2⟩
      | none =>
        rw [hco] at h
        cases hco2 : colonOpt (a :: b :: c2 :: rest) with
        | some s2 =>
          rw [hco2] at h
          simp only [Option.map, Option.some.injEq, Prod.mk.injEq] at h
          obtain ⟨hg, hs⟩ := h
          subst hs
          obtain ⟨h1, h2⟩ := colonOpt_result hco2
          refine ⟨⟨h1, h2⟩, ?_⟩
          intro str hstr
          rw [← hg] at hstr
          exact Option.noConfusion hstr
        | none => rw [hco2] at h; exact Option.noConfusion h
    · rw [if_neg hd] at h
      cases hco2 : colonOpt (a :: b :: c2 :: rest) with
      | some s2 =>
        rw [hco2] at h
        simp only [Option.map, Option.some.injEq, Prod.mk.injEq] at h
        obtain ⟨hg, hs⟩ := h
        subst hs
        obtain ⟨h1, h2⟩ := colonOpt_result hco2
        refine ⟨⟨h1, h2⟩, ?_⟩
        intro str hstr
        rw [← hg] at hstr
        exact Option.noConfusion hstr
      | none => rw [hco2] at h; exact Option.noConfusion h
  · next =>
    cases hco2 : colonOpt cs with
    | some s2 =>
      rw [hco2] at h
      simp only [Option.map, Option.some.injEq, Prod.mk.injEq] at h
      obtain ⟨hg, hs⟩ := h
      subst hs
      obtain ⟨h1, h2⟩ := colonOpt_result hco2
      refine ⟨⟨h1, h2⟩, ?_⟩
      intro str hstr
      rw [← hg] at hstr
      exact Option.noConfusion hstr
    | none => rw [hco2] at h; exact Option.noConfusion h

lemma spacesStarDigits_result :
    ∀ {cs : List Char} {g : Option String} {s : String}, spacesStarDigits cs = some (g, s) →
      (s.toList ≠ [] ∧ ∀ c ∈ s.toList, c ∈ cs) ∧
        ∀ str, g = some str →
          ∃ a b c2, str.toList = [a, b, c2] ∧
            a.isDigit = true ∧ b.isDigit = true ∧ c2.isDigit = true := by
  intro cs
  induction cs with
  | nil =>
    intro g s h
    exact digitsOpt_result h
  | cons c rest ih =>
    intro g s h
    by_cases hs : pyIsSpace c = true
    · simp only [spacesStarDigits, hs, if_true] at h
      cases hr : spacesStarDigits rest with
      | some r2 =>
        rw [hr] at h
        simp only [Option.some.injEq] at h
        subst h
        obtain ⟨⟨h1, h2⟩, h3⟩ := ih hr
        exact ⟨⟨h1, fun d hd => by simp [h2 d hd]⟩, h3⟩
      | none =>
        rw [hr] at h
        exact digitsOpt_result h
    · simp only [spacesStarDigits] at h
      rw [if_neg hs] at h
      exact digitsOpt_result h

lemma matchAfterERROR_result {cs : List Char} {g : Option String} {s : String}
    (h : matchAfterERROR cs = some (g, s)) :
    (s.toList ≠ [] ∧ ∀ c ∈ s.toList, c ∈ cs) ∧
      ∀ str, g = some str →
        ∃ a b c2, str.toList = [a, b, c2] ∧
          a.isDigit = true ∧ b.isDigit = true ∧ c2.isDigit = true := by
  cases cs with
  | nil => exact Option.noConfusion h
  | cons c rest =>
    by_cases hs : pyIsSpace c = true
    · simp only [matchAfterERROR, hs, if_true] at h
      obtain ⟨⟨h1, h2⟩, h3⟩ := spacesStarDigits_result h
      exact ⟨⟨h1, fun d hd => by simp [h2 d hd]⟩, h3⟩
    · simp only [matchAfterERROR] at h
      rw [if_neg hs] at h
      exact Option.noConfusion h

lemma matchERRORHere_result :
    ∀ {cs : List Char} {g : Option String} {s : String}, matchERRORHere cs = some (g, s) →
      (s.toList ≠ [] ∧ ∀ c ∈ s.toList, c ∈ cs) ∧
        ∀ str, g = some str →
          ∃ a b c2, str.toList = [a, b, c2] ∧
            a.isDigit = true ∧ b.isDigit = true ∧ c2.isDigit = true := by
  intro cs g s h
  rw [matchERRORHere.eq_def] at h
  split at h
  · next c1 c2 c3 c4 c5 tail =>
    by_cases hcond : c1 = 'E' ∧ c2 = 'R' ∧ c3 = 'R' ∧ c4 = 'O' ∧ c5 = 'R'
    · rw [if_pos hcond] at h
      obtain ⟨⟨h1, h2⟩, h3⟩ := matchAfterERROR_result h
      exact ⟨⟨h1, fun d hd => by simp [h2 d hd]⟩, h3⟩
    · rw [if_neg hcond] at h
      exact Option.noConfusion h
  · next => exact Option.noConfusion h

lemma searchError_result :
    ∀ {cs : List Char} {g : Option String} {s : String}, searchError cs = some (g, s) →
      (s.toList ≠ [] ∧ ∀ c ∈ s.toList, c ∈ cs) ∧
        ∀ str, g = some str →
          ∃ a b c2, str.toList = [a, b, c2] ∧
            a.isDigit = true ∧ b.isDigit = true ∧ c2.isDigit = true := by
  intro cs
  induction cs with
  | nil => intro g s h; exact Option.noConfusion h
  | cons c rest ih =>
    intro g s h
    cases hm : matchERRORHere (c :: rest) with
    | some r =>
      simp only [searchError, hm, Option.some.injEq] at h
      subst h
      exact matchERRORHere_result hm
    | none =>
      simp only [searchError, hm] at h
      obtain ⟨⟨h1, h2⟩, h3⟩ := ih h
      exact ⟨⟨h1, fun d hd => by simp [h2 d hd]⟩, h3⟩

lemma searchError_key_good {cs : List Char} {g : Option String} {s : String}
    (hcs : ∀ c ∈ cs, c ≠ ':' ∧ c ≠ '\n' ∧ c ≠ '\r')
    (h : searchError cs = some (g, s)) :
    goodKey ("Error " ++ g.getD "N/A" ++ ": " ++ s) := by
  obtain ⟨⟨_, hmem⟩, hg⟩ := searchError_result h
  have hdch : ∀ c ∈ s.toList, c ≠ ':' ∧ c ≠ '\n' ∧ c ≠ '\r' := fun c hc => hcs c (hmem c hc)
  cases g with
  | none =>
    refine ⟨'N', '/', 'A', s.toList, ?_, Or.inr ⟨rfl, rfl, rfl⟩, hdch⟩
    show ("Error " ++ "N/A" ++ ": " ++ s).data = _
    rw [String.data_append, String.data_append, String.data_append]
    rfl
  | some str =>
    obtain ⟨a, b, c2, hstr, ha, hb, hc2⟩ := hg str rfl
    refine ⟨a, b, c2, s.toList, ?_, Or.inl ⟨ha, hb, hc2⟩, hdch⟩
    show ("Error " ++ str ++ ": " ++ s).data = _
    rw [String.data_append, String.data_append, String.data_append,
      show str.data = [a, b, c2] from hstr]
    rfl

lemma pySplitlines_no_break :
    ∀ (cs acc : List Char), (∀ c ∈ acc, c ≠ '\n' ∧ c ≠ '\r') →
      ∀ line ∈ splitlinesAux cs acc, ∀ c ∈ line.toList, c ≠ '\n' ∧ c ≠ '\r' := by
  intro cs acc
  induction cs, acc using splitlinesAux.induct with
  | case1 =>
    intro _ line hline
    simp [splitlinesAux] at hline
  | case2 acc hne =>
    intro hacc line hline
    cases hacc2 : acc with
    | nil => exact absurd hacc2 hne
    | cons a as =>
      subst hacc2
      simp only [splitlinesAux, List.mem_singleton] at hline
      subst hline
      intro c hc
      exact hacc c (List.mem_reverse.mp hc)
  | case3 rest acc ih =>
    intro hacc line hline
    simp only [splitlinesAux, List.mem_cons] at hline
    rcases hline with hline | hline
    · subst hline
      intro c hc
      exact hacc c (by simpa using hc)
    · exact ih (by simp) line hline
  | case4 rest acc ih =>
    intro hacc line hline
    simp only [splitlinesAux, List.mem_cons] at hline
    rcases hline with hline | hline
    · subst hline
      intro c hc
      exact hacc c (by simpa using hc)
    · exact ih (by simp) line hline
  | case5 rest acc hne ih =>
    intro hacc line hline
    rw [show splitlinesAux ('\r' :: rest) acc =
        String.mk acc.reverse :: splitlinesAux rest [] from by
      rw [splitlinesAux.eq_def]
      cases rest with
      | nil => simp
      | cons d rest' =>
        have hd : d ≠ '\n' := fun hcon => hne rest' (by rw [hcon])
        simp [hd]] at hline
    rcases List.mem_cons.mp hline with hline | hline
    · subst hline
      intro c hc
      exact hacc c (by simpa using hc)
    · exact ih (by simp) line hline
  | case6 c rest acc h1 h2 h3 ih =>
    intro hacc line hline
    rw [show splitlinesAux (c :: rest) acc = splitlinesAux rest (c :: acc) from by
      rw [splitlinesAux.eq_def]
      cases rest with
      | nil => simp [h2, h3]
      | cons d rest' => simp [h2, h3]] at hline
    refine ih ?_ line hline
    intro d hd
    rcases List.mem_cons.mp hd with hd | hd
    · subst hd
      exact ⟨h2, h3⟩
    · exact hacc d hd

lemma stripChars_subset {l : List Char} : ∀ c ∈ stripChars l, c ∈ l := by
  intro c hc
  unfold stripChars at hc
  have h1 : c ∈ (l.dropWhile pyIsSpace).reverse.dropWhile pyIsSpace := by simpa using hc
  have h2 : c ∈ (l.dropWhile pyIsSpace).reverse := (List.dropWhile_sublist _).subset h1
  have h3 : c ∈ l.dropWhile pyIsSpace := by simpa using h2
  exact (List.dropWhile_sublist _).subset h3

lemma transformLine_chars (line : String)
    (hline : ∀ c ∈ line.toList, c ≠ '\n' ∧ c ≠ '\r') :
    ∀ c ∈ (transformLine line).toList, c ≠ ':' ∧ c ≠ '\n' ∧ c ≠ '\r' := by
  intro c hc
  unfold transformLine pyStrip at hc
  have h1 : c ∈ (pyReplaceColon line).toList := stripChars_subset c hc
  have h2 : c ∈ line.toList.map replColon := by simpa [pyReplaceColon] using h1
  obtain ⟨c0, hc0, rfl⟩ := List.mem_map.mp h2
  obtain ⟨hn, hr⟩ := hline c0 hc0
  refine ⟨?_, replColon_ne_newline c0 hn, replColon_ne_cr c0 hr⟩
  unfold replColon
  split
  · decide
  · next hne => exact hne

lemma bump_keys (k : String) :
    ∀ t : List (String × Nat), ∀ r ∈ bump k t, r.1 = k ∨ ∃ r2 ∈ t, r.1 = r2.1 := by
  intro t
  induction t with
  | nil =>
    intro r hr
    simp only [bump, List.mem_singleton] at hr
    subst hr
    exact Or.inl rfl
  | cons hd tl ih =>
    intro r hr
    obtain ⟨k2, n⟩ := hd
    by_cases hk : k2 = k
    · simp only [bump, if_pos hk] at hr
      rcases List.mem_cons.mp hr with hr | hr
      · subst hr; exact Or.inl hk
      · exact Or.inr ⟨r, by simp [hr]⟩
    · simp only [bump, if_neg hk] at hr
      rcases List.mem_cons.mp hr with hr | hr
      · subst hr; exact Or.inr ⟨(k2, n), by simp⟩
      · rcases ih r hr with h | ⟨r2, hr2, hr3⟩
        · exact Or.inl h
        · exact Or.inr ⟨r2, by simp [hr2], hr3⟩

/-- Every key in the table `regex_logs` builds has the `goodKey` shape. -/
lemma regex_logs_goodKeys (log : String) : ∀ r ∈ regex_logs log, goodKey r.1 := by
  unfold regex_logs
  have hlines := fun line hline => pySplitlines_no_break log.toList [] (by simp) line hline
  have main : ∀ (lines : List String), (∀ line ∈ lines, ∀ c ∈ line.toList, c ≠ '\n' ∧ c ≠ '\r') →
      ∀ t : List (String × Nat), (∀ r ∈ t, goodKey r.1) →
      ∀ r ∈ lines.foldl regexLogsStep t, goodKey r.1 := by
    intro lines
    induction lines with
    | nil => intro _ t ht r hr; exact ht r hr
    | cons l ls ih =>
      intro hl t ht r hr
      rw [List.foldl_cons] at hr
      refine ih (fun x hx => hl x (by simp [hx])) _ ?_ r hr
      intro r2 hr2
      unfold regexLogsStep at hr2
      cases hse : searchError (transformLine l).toList with
      | none =>
        rw [hse] at hr2
        exact ht r2 hr2
      | some p =>
        obtain ⟨g, s⟩ := p
        rw [hse] at hr2
        rcases bump_keys _ t r2 hr2 with h | ⟨r3, hr3, hr4⟩
        · rw [h]
          exact searchError_key_good
            (transformLine_chars l (fun c hc => hl l (by simp) c hc)) hse
        · rw [hr4]
          exact ht r3 hr3
  exact main (pySplitlines log) hlines [] (by simp)

/-! The separator-split round trip for well-formed keys -/

lemma splitCountSepAux_nil (acc : List Char) : splitCountSepAux [] acc = [acc.reverse] := by
  rw [splitCountSepAux.eq_def]

lemma splitCountSepAux_pos (c : Char) (rest acc : List Char)
    (h : sepHere (c :: rest) = true) :
    splitCountSepAux (c :: rest) acc = acc.reverse :: splitCountSepAux (rest.drop 9) [] := by
  rw [splitCountSepAux.eq_def]
  simp only [h, if_true]

lemma splitCountSepAux_neg (c : Char) (rest acc : List Char)
    (h : sepHere (c :: rest) = false) :
    splitCountSepAux (c :: rest) acc = splitCountSepAux rest (c :: acc) := by
  rw [splitCountSepAux.eq_def]
  simp only [h, if_false]
  rfl

lemma splitCountSepAux_sep (n acc : List Char) :
    splitCountSepAux (sepChars ++ n) acc = acc.reverse :: splitCountSepAux n [] := by
  have hsep : sepHere
      (' ' :: ('-' :: ' ' :: 'C' :: 'o' :: 'u' :: 'n' :: 't' :: ':' :: ' ' :: n)) = true := by
    simp [sepHere]
  rw [show sepChars ++ n =
    ' ' :: ('-' :: ' ' :: 'C' :: 'o' :: 'u' :: 'n' :: 't' :: ':' :: ' ' :: n) from rfl]
  rw [splitCountSepAux_pos _ _ _ hsep]
  rfl

lemma sepHere_true_shape :
    ∀ cs : List Char, sepHere cs = true → ∃ r, cs = sepChars ++ r := by
  intro cs h
  rcases cs with _ | ⟨c1, _ | ⟨c2, _ | ⟨c3, _ | ⟨c4, _ | ⟨c5, _ | ⟨c6, _ | ⟨c7, _ |
    ⟨c8, _ | ⟨c9, _ | ⟨c10, tail⟩⟩⟩⟩⟩⟩⟩⟩⟩⟩
  all_goals simp [sepHere] at h
  refine ⟨tail, ?_⟩
  simp only [sepChars, List.cons_append, List.nil_append, List.cons.injEq]
  refine ⟨?_, ?_, ?_, ?_, ?_, ?_, ?_, ?_, ?_, ?_, trivial⟩ <;> tauto

lemma sepChars_no_colon_lt8 : ∀ j, j ≤ 7 → sepChars[j]? ≠ some ':' := by
  decide

lemma sepHere_block {d : List Char} (n : List Char) (hne : d ≠ [])
    (hd : ∀ c ∈ d, c ≠ ':') :
    sepHere (d ++ (sepChars ++ n)) = false := by
  by_contra hcon
  obtain ⟨r, hr⟩ := sepHere_true_shape _ (Bool.not_eq_false _ ▸ hcon)
  have h8 : (d ++ (sepChars ++ n))[8]? = some ':' := by
    rw [hr]
    rfl
  rw [List.getElem?_append] at h8
  by_cases hlen : 8 < d.length
  · rw [if_pos hlen] at h8
    exact absurd rfl (hd ':' (List.getElem?_mem h8))
  · rw [if_neg hlen] at h8
    rw [List.getElem?_append] at h8
    have hslen : sepChars.length = 10 := rfl
    have hlen1 : 1 ≤ d.length := List.length_pos.mpr hne
    rw [if_pos (by omega)] at h8
    exact sepChars_no_colon_lt8 (8 - d.length) (by omega) h8

lemma splitCountSepAux_colonFree :
    ∀ cs acc, (∀ c ∈ cs, c ≠ ':') → splitCountSepAux cs acc = [acc.reverse ++ cs] := by
  intro cs
  induction cs with
  | nil => intro acc _; rw [splitCountSepAux_nil]; simp
  | cons c rest ih =>
    intro acc h
    have hsep : sepHere (c :: rest) = false := by
      by_contra hcon
      obtain ⟨r, hr⟩ := sepHere_true_shape _ (Bool.not_eq_false _ ▸ hcon)
      have : (':' : Char) ∈ c :: rest := by
        rw [hr]
        rw [show sepChars ++ r = ' ' :: '-' :: ' ' :: 'C' :: 'o' :: 'u' :: 'n' :: 't' ::
          ':' :: ' ' :: r from rfl]
        simp
      exact absurd rfl (h ':' this)
    rw [splitCountSepAux_neg _ _ _ hsep,
      ih (c :: acc) (fun x hx => h x (by simp [hx]))]
    simp

lemma splitCountSepAux_block :
    ∀ (d : List Char), d ≠ [] → (∀ c ∈ d, c ≠ ':') →
      ∀ (acc n : List Char), (∀ c ∈ n, c ≠ ':') →
      splitCountSepAux (d ++ (sepChars ++ n)) acc = [acc.reverse ++ d, n] := by
  intro d
  induction d with
  | nil => intro hne; exact absurd rfl hne
  | cons c rest ih =>
    intro _ hd acc n hn
    rw [show (c :: rest) ++ (sepChars ++ n) = c :: (rest ++ (sepChars ++ n)) from rfl]
    have hsep : sepHere (c :: (rest ++ (sepChars ++ n))) = false := by
      have := sepHere_block n (show c :: rest ≠ [] by simp) hd
      simpa using this
    rw [splitCountSepAux_neg _ _ _ hsep]
    cases hrest : rest with
    | nil =>
      subst hrest
      simp only [List.nil_append]
      rw [splitCountSepAux_sep, splitCountSepAux_colonFree n [] hn]
      simp
    | cons c2 rest2 =>
      subst hrest
      rw [ih (by simp) (fun x hx => hd x (by simp [hx])) (c :: acc) n hn]
      simp

lemma sepHere_head {c : Char} (rest : List Char) (h : c ≠ ' ') :
    sepHere (c :: rest) = false := by
  by_contra hcon
  obtain ⟨r, hr⟩ := sepHere_true_shape _ (Bool.not_eq_false _ ▸ hcon)
  rw [show sepChars ++ r = ' ' :: ('-' :: ' ' :: 'C' :: 'o' :: 'u' :: 'n' :: 't' :: ':' ::
    ' ' :: r) from rfl] at hr
  exact h (List.cons_eq_cons.mp hr).1

lemma sepHere_second {c : Char} (rest : List Char) (h : c ≠ '-') :
    sepHere (' ' :: c :: rest) = false := by
  by_contra hcon
  obtain ⟨r, hr⟩ := sepHere_true_shape _ (Bool.not_eq_false _ ▸ hcon)
  rw [show sepChars ++ r = ' ' :: ('-' :: (' ' :: 'C' :: 'o' :: 'u' :: 'n' :: 't' :: ':' ::
    ' ' :: r)) from rfl] at hr
  exact h (List.cons_eq_cons.mp (List.cons_eq_cons.mp hr).2).1

lemma goodCode_facts {c0 c1 c2 : Char} (h : goodCode c0 c1 c2) :
    c0 ≠ ' ' ∧ c0 ≠ '-' ∧ c1 ≠ ' ' ∧ c2 ≠ ' ' := by
  rcases h with ⟨h0, h1, h2⟩ | ⟨h0, h1, h2⟩
  · refine ⟨?_, ?_, ?_, ?_⟩
    · intro hcon; rw [hcon] at h0; exact absurd h0 (by decide)
    · intro hcon; rw [hcon] at h0; exact absurd h0 (by decide)
    · intro hcon; rw [hcon] at h1; exact absurd h1 (by decide)
    · intro hcon; rw [hcon] at h2; exact absurd h2 (by decide)
  · subst h0; subst h1; subst h2
    exact ⟨by decide, by decide, by decide, by decide⟩

/-- Splitting `key ++ " - Count: " ++ digits` at the separator yields exactly
the key and the digits: the only colon of the key sits directly after the
three-character code, where the surrounding characters rule out a separator
occurrence, and the description and digits are colon-free. -/
lemma splitCountSep_goodKey (c0 c1 c2 : Char) (dch n : List Char)
    (hcode : goodCode c0 c1 c2)
    (hdch : ∀ c ∈ dch, c ≠ ':')
    (hn : ∀ c ∈ n, c ≠ ':') :
    splitCountSepAux
      (('E' :: 'r' :: 'r' :: 'o' :: 'r' :: ' ' :: c0 :: c1 :: c2 :: ':' :: ' ' :: dch) ++
        (sepChars ++ n)) [] =
      ['E' :: 'r' :: 'r' :: 'o' :: 'r' :: ' ' :: c0 :: c1 :: c2 :: ':' :: ' ' :: dch, n] := by
  obtain ⟨hc0a, hc0b, hc1, hc2⟩ := goodCode_facts hcode
  rw [show ('E' :: 'r' :: 'r' :: 'o' :: 'r' :: ' ' :: c0 :: c1 :: c2 :: ':' :: ' ' :: dch) ++
      (sepChars ++ n) =
    'E' :: 'r' :: 'r' :: 'o' :: 'r' :: ' ' :: c0 :: c1 :: c2 :: ':' ::
      ((' ' :: dch) ++ (sepChars ++ n)) from by simp]
  rw [splitCountSepAux_neg _ _ _ (sepHere_head _ (by decide))]
  rw [splitCountSepAux_neg _ _ _ (sepHere_head _ (by decide))]
  rw [splitCountSepAux_neg _ _ _ (sepHere_head _ (by decide))]
  rw [splitCountSepAux_neg _ _ _ (sepHere_head _ (by decide))]
  rw [splitCountSepAux_neg _ _ _ (sepHere_head _ (by decide))]
  rw [splitCountSepAux_neg _ _ _ (by
    rw [show (' ' :: (c0 :: c1 :: c2 :: ':' :: ((' ' :: dch) ++ (sepChars ++ n)))) =
      ' ' :: c0 :: (c1 :: c2 :: ':' :: ((' ' :: dch) ++ (sepChars ++ n))) from rfl]
    exact sepHere_second _ hc0b)]
  rw [splitCountSepAux_neg _ _ _ (sepHere_head _ hc0a)]
  rw [splitCountSepAux_neg _ _ _ (sepHere_head _ hc1)]
  rw [splitCountSepAux_neg _ _ _ (sepHere_head _ hc2)]
  rw [splitCountSepAux_neg _ _ _ (sepHere_head _ (by decide))]
  rw [splitCountSepAux_block (' ' :: dch) (by simp)
    (fun c hc => by
      rcases List.mem_cons.mp hc with h | h
      · rw [h]; decide
      · exact hdch c h) _ n hn]
  simp

lemma splitNLAux_no_nl :
    ∀ cs acc, (∀ c ∈ cs, c ≠ '\n') → splitNLAux cs acc = [String.mk (acc.reverse ++ cs)] := by
  intro cs
  induction cs with
  | nil => intro acc _; simp [splitNLAux]
  | cons c rest ih =>
    intro acc h
    have hc : c ≠ '\n' := h c (by simp)
    rw [show splitNLAux (c :: rest) acc = splitNLAux rest (c :: acc) from by
      rw [splitNLAux.eq_def]
      cases rest with
      | nil => simp [hc]
      | cons d rest2 => simp [hc]]
    rw [ih (c :: acc) (fun x hx => h x (by simp [hx]))]
    simp

lemma splitNLAux_append :
    ∀ (l₁ : List Char), (∀ c ∈ l₁, c ≠ '\n') → ∀ (rest acc : List Char),
      splitNLAux (l₁ ++ '\n' :: rest) acc =
        String.mk (acc.reverse ++ l₁) :: splitNLAux rest [] := by
  intro l₁
  induction l₁ with
  | nil =>
    intro _ rest acc
    simp [splitNLAux]
  | cons c l ih =>
    intro h rest acc
    have hc : c ≠ '\n' := h c (by simp)
    rw [show (c :: l) ++ '\n' :: rest = c :: (l ++ '\n' :: rest) from rfl]
    rw [show splitNLAux (c :: (l ++ '\n' :: rest)) acc =
        splitNLAux (l ++ '\n' :: rest) (c :: acc) from by
      rw [splitNLAux.eq_def]
      cases hl : l ++ '\n' :: rest with
      | nil => simp at hl
      | cons d rest2 => simp [hc]]
    rw [ih (fun x hx => h x (by simp [hx])) rest (c :: acc)]
    simp

lemma pySplitNL_joinNL :
    ∀ ls : List String, ls ≠ [] → (∀ l ∈ ls, ∀ c ∈ l.toList, c ≠ '\n') →
      pySplitNL (joinNL ls) = ls := by
  intro ls
  induction ls with
  | nil => intro h _; exact absurd rfl h
  | cons l ls ih =>
    intro _ h
    cases ls with
    | nil =>
      unfold pySplitNL joinNL
      rw [splitNLAux_no_nl l.toList [] (h l (by simp))]
      simp
    | cons l2 ls2 =>
      unfold pySplitNL
      rw [show joinNL (l :: l2 :: ls2) = l ++ "\n" ++ joinNL (l2 :: ls2) from rfl]
      rw [show (l ++ "\n" ++ joinNL (l2 :: ls2)).toList =
        l.toList ++ '\n' :: (joinNL (l2 :: ls2)).toList from by
          rw [toList_append, toList_append]
          simp [show ("\n" : String).toList = ['\n'] from rfl]]
      rw [splitNLAux_append l.toList (h l (by simp)) _ []]
      have := ih (by simp) (fun x hx => h x (by simp [hx]))
      unfold pySplitNL at this
      rw [this]
      simp

lemma isDigit_ne_breaks {c : Char} (h : c.isDigit = true) : c ≠ ':' ∧ c ≠ '\n' := by
  constructor
  · intro hcon; rw [hcon] at h; exact absurd h (by decide)
  · intro hcon; rw [hcon] at h; exact absurd h (by decide)

lemma rowOfLine_rendered (k : String) (cnt : Nat) (hk : goodKey k) :
    rowOfLine (k ++ " - Count: " ++ natToStr cnt) = .ok (csvRow [k, natToStr cnt]) := by
  obtain ⟨c0, c1, c2, dch, hkL, hcode, hdch⟩ := hk
  unfold rowOfLine pySplitCountSep
  have hL : (k ++ " - Count: " ++ natToStr cnt).toList =
      ('E' :: 'r' :: 'r' :: 'o' :: 'r' :: ' ' :: c0 :: c1 :: c2 :: ':' :: ' ' :: dch) ++
        (sepChars ++ (natToStr cnt).toList) := by
    rw [toList_append, toList_append, hkL]
    rw [show (" - Count: " : String).toList = sepChars from rfl]
    simp
  rw [hL]
  rw [splitCountSep_goodKey c0 c1 c2 dch (natToStr cnt).toList hcode
    (fun c hc => (hdch c hc).1)
    (fun c hc => (isDigit_ne_breaks (natToStr_chars cnt c hc)).1)]
  simp only [List.map_cons, List.map_nil]
  rw [show String.mk
      ('E' :: 'r' :: 'r' :: 'o' :: 'r' :: ' ' :: c0 :: c1 :: c2 :: ':' :: ' ' :: dch) = k from by
    rw [← hkL]
    rfl]
  rfl

lemma mapM_rowOfLine :
    ∀ rs : List (String × Nat), (∀ r ∈ rs, goodKey r.1) →
      (rs.map (fun r => r.1 ++ " - Count: " ++ natToStr r.2)).mapM rowOfLine =
        .ok (rs.map (fun r => csvRow [r.1, natToStr r.2])) := by
  intro rs
  induction rs with
  | nil => intro _; rfl
  | cons r rs ih =>
    intro h
    simp only [List.map_cons, List.mapM_cons]
    rw [rowOfLine_rendered r.1 r.2 (h r (by simp)), ih (fun x hx => h x (by simp [hx]))]
    rfl

lemma rendered_ne_empty (r : String × Nat) (rs : List (String × Nat))
    (hgood : goodKey r.1) :
    joinNL ((r :: rs).map (fun x => x.1 ++ " - Count: " ++ natToStr x.2)) ≠ "" := by
  obtain ⟨c0, c1, c2, dch, hkL, _, _⟩ := hgood
  have hlne : (r.1 ++ " - Count: " ++ natToStr r.2).toList ≠ [] := by
    rw [toList_append, toList_append, hkL]
    simp
  cases rs with
  | nil =>
    intro hcon
    apply hlne
    rw [show ((r :: ([] : List (String × Nat))).map
        (fun x => x.1 ++ " - Count: " ++ natToStr x.2)) =
      [r.1 ++ " - Count: " ++ natToStr r.2] from rfl] at hcon
    rw [show joinNL [r.1 ++ " - Count: " ++ natToStr r.2] =
      r.1 ++ " - Count: " ++ natToStr r.2 from rfl] at hcon
    rw [hcon]
    rfl
  | cons r2 rs2 =>
    simp only [List.map_cons]
    rw [show joinNL ((r.1 ++ " - Count: " ++ natToStr r.2) ::
        (r2.1 ++ " - Count: " ++ natToStr r2.2) ::
        rs2.map (fun x => x.1 ++ " - Count: " ++ natToStr x.2)) =
      (r.1 ++ " - Count: " ++ natToStr r.2) ++ "\n" ++
        joinNL ((r2.1 ++ " - Count: " ++ natToStr r2.2) ::
          rs2.map (fun x => x.1 ++ " - Count: " ++ natToStr x.2)) from rfl]
    intro hcon
    have h2 := congrArg String.toList hcon
    rw [toList_append, toList_append,
      show ("" : String).toList = ([] : List Char) from rfl] at h2
    simp only [List.append_eq_nil] at h2
    exact hlne h2.1.1

/-- C6 amended: for every valid upload whose extracted frequency table is
nonempty, backend2.py's `download_error_summary` produces exactly the
two-column header row `Type & Description,Count` followed by one CSV data
row per record, in the records' insertion order, each row holding the
record's merged key string and its count.  (backend.py's variant of the
endpoint never produces a stream, and on an upload with no error records
backend2.py answers HTTP 400 instead of a header-only file.) -/
theorem download_error_summary2_rows (content : String)
    (h1 : pyStrip content ≠ "")
    (h2 : regex_logs (pyStrip content) ≠ []) :
    download_error_summary2 content =
      .ok (csvRow ["Type & Description", "Count"] ++
        String.join ((regex_logs (pyStrip content)).map
          (fun r => csvRow [r.1, natToStr r.2]))) := by
  have hval : validateContent content = .ok (pyStrip content) := by
    unfold validateContent
    rw [if_neg h1]
  have hgood := regex_logs_goodKeys (pyStrip content)
  obtain ⟨r0, rs0, hrs⟩ := List.exists_cons_of_ne_nil h2
  have hne : pre_summarize_logs (pyStrip content) ≠ "" := by
    unfold pre_summarize_logs
    rw [hrs]
    exact rendered_ne_empty r0 rs0 (hgood r0 (by rw [hrs]; simp))
  have hlines : pySplitNL (pre_summarize_logs (pyStrip content)) =
      (regex_logs (pyStrip content)).map (fun r => r.1 ++ " - Count: " ++ natToStr r.2) := by
    unfold pre_summarize_logs
    apply pySplitNL_joinNL
    · rw [hrs]; simp
    · intro l hl c hc
      obtain ⟨r, hr, rfl⟩ := List.mem_map.mp hl
      obtain ⟨c0, c1, c2, dch, hkL, hcode, hdch⟩ := hgood r hr
      rw [toList_append, toList_append, hkL] at hc
      simp only [List.cons_append, List.mem_cons, List.mem_append] at hc
      rcases hc with h | h | h | h | h | h | h | h | h | h | h | ((h | h) | h)
      · rw [h]; decide
      · rw [h]; decide
      · rw [h]; decide
      · rw [h]; decide
      · rw [h]; decide
      · rw [h]; decide
      · rcases hcode with ⟨hd, _, _⟩ | ⟨hd, _, _⟩
        · rw [h]; exact (isDigit_ne_breaks hd).2
        · rw [h, hd]; decide
      · rcases hcode with ⟨_, hd, _⟩ | ⟨_, hd, _⟩
        · rw [h]; exact (isDigit_ne_breaks hd).2
        · rw [h, hd]; decide
      · rcases hcode with ⟨_, _, hd⟩ | ⟨_, _, hd⟩
        · rw [h]; exact (isDigit_ne_breaks hd).2
        · rw [h, hd]; decide
      · rw [h]; decide
      · rw [h]; decide
      · exact (hdch c h).2.1
      · intro hcon
        rw [hcon] at h
        rw [show (" - Count: " : String).toList = sepChars from rfl] at h
        exact absurd h (by decide)
      · exact (isDigit_ne_breaks (natToStr_chars r.2 c h)).2
  have hrows := mapM_rowOfLine (regex_logs (pyStrip content)) hgood
  unfold download_error_summary2
  rw [hval]
  simp only [hlines, hrows, if_neg hne]

/-- C6 counterexample: backend.py's `download_error_summary` on the
one-error upload `"ERROR 404: x"`: it binds the chunk list to
`error_summary`, writes a four-column header (not
`Type & Description,Count`), and then subscripting the list with
`"Error Summary"` raises `TypeError` — no CSV byte stream is ever
produced, refuting the claim as stated for that cited variant. -/
theorem download_error_summaryB_counterexample :
    download_error_summaryB "ERROR 404: x" =
      Except.error "TypeError: list indices must be integers or slices, not str" := rfl

/-- Witness for C6 (amended) on a two-record document with a repeated
line. -/
theorem download_error_summary2_rows_witness :
    download_error_summary2 "ERROR 404: x\nERROR: y\nERROR 404: x" =
      .ok (csvRow ["Type & Description", "Count"] ++
        String.join ((regex_logs (pyStrip "ERROR 404: x\nERROR: y\nERROR 404: x")).map
          (fun r => csvRow [r.1, natToStr r.2]))) :=
  download_error_summary2_rows "ERROR 404: x\nERROR: y\nERROR 404: x" (by decide) (by decide)

end LogAnalyser
